import Mathlib

/-!
# Verification of the llm-monitor core against its specification

This file gives a shallow embedding, in Lean 4, of the core of the
`llm-monitor` reverse proxy: the hash ledger (`computeHash`,
`computeHistoryHash`), the conversation store (`AddMessage`,
`FindMessageByHistory`, `CreateConversation`), the saving mixin
(`SaveToStorage`), the OpenAI chat interceptor (request mutation, SSE
chunk accumulation, tool-call reassembly) and the proxy engine's hook
dispatch (`ServeHTTP`/`ServeHTTP2`).  Each definition is translated from
the Go source; theorems at the end settle the specification's claims.
-/

/-! ## SHA-256

The store's hash ledger calls Go's `crypto/sha256` and hex-encodes the
digest (`computeHash` in `postgres.go`).  We implement SHA-256 here over
byte lists, with 32-bit words represented as `Nat` reduced `% 2^32`.
All recursion is structural (fuel-based where needed) so that concrete
hashes evaluate inside the kernel.
-/

def wordMod : Nat := 4294967296

def add32 (a b : Nat) : Nat := (a + b) % wordMod

def not32 (x : Nat) : Nat := 4294967295 - (x % wordMod)

def rotr32 (x n : Nat) : Nat :=
  ((x >>> n) ||| (x <<< (32 - n))) % wordMod

def shr32 (x n : Nat) : Nat := x >>> n

def bigSigma0 (x : Nat) : Nat := (rotr32 x 2) ^^^ (rotr32 x 13) ^^^ (rotr32 x 22)

def bigSigma1 (x : Nat) : Nat := (rotr32 x 6) ^^^ (rotr32 x 11) ^^^ (rotr32 x 25)

def smallSigma0 (x : Nat) : Nat := (rotr32 x 7) ^^^ (rotr32 x 18) ^^^ (shr32 x 3)

def smallSigma1 (x : Nat) : Nat := (rotr32 x 17) ^^^ (rotr32 x 19) ^^^ (shr32 x 10)

def chFn (e f g : Nat) : Nat := (e &&& f) ^^^ ((not32 e) &&& g)

def majFn (a b c : Nat) : Nat := (a &&& b) ^^^ (a &&& c) ^^^ (b &&& c)

def sha256K : List Nat :=
  [1116352408, 1899447441, 3049323471, 3921009573, 961987163, 1508970993, 2453635748, 2870763221,
   3624381080, 310598401, 607225278, 1426881987, 1925078388, 2162078206, 2614888103, 3248222580,
   3835390401, 4022224774, 264347078, 604807628, 770255983, 1249150122, 1555081692, 1996064986,
   2554220882, 2821834349, 2952996808, 3210313671, 3336571891, 3584528711, 113926993, 338241895,
   666307205, 773529912, 1294757372, 1396182291, 1695183700, 1986661051, 2177026350, 2456956037,
   2730485921, 2820302411, 3259730800, 3345764771, 3516065817, 3600352804, 4094571909, 275423344,
   430227734, 506948616, 659060556, 883997877, 958139571, 1322822218, 1537002063, 1747873779,
   1955562222, 2024104815, 2227730452, 2361852424, 2428436474, 2756734187, 3204031479, 3329325298]

def sha256H0 : List Nat :=
  [1779033703, 3144134277, 1013904242, 2773480762, 1359893119, 2600822924, 528734635, 1541459225]

/-- Big-endian bytes (most significant first) of `n`, `k` bytes wide. -/
def natToBytesBE : Nat → Nat → List Nat
  | 0, _ => []
  | k + 1, n => natToBytesBE k (n >>> 8) ++ [n &&& 255]

/-- SHA-256 padding: append `0x80`, zero bytes to 56 mod 64, and the
bit length as 8 big-endian bytes. -/
def sha256Pad (msg : List Nat) : List Nat :=
  let len := msg.length
  let zeros := (119 - len % 64) % 64
  msg ++ [0x80] ++ List.replicate zeros 0 ++ natToBytesBE 8 (8 * len)

/-- Group a byte list into big-endian 32-bit words (length must be a
multiple of 4; fuel-based so it reduces in the kernel). -/
def bytesToWords : Nat → List Nat → List Nat
  | 0, _ => []
  | _ + 1, [] => []
  | fuel + 1, b0 :: rest =>
    match rest with
    | b1 :: b2 :: b3 :: rest' =>
      (((b0 <<< 24) ||| (b1 <<< 16) ||| (b2 <<< 8) ||| b3) % wordMod) :: bytesToWords fuel rest'
    | _ => []

/-- Split a word list into 16-word blocks (fuel-based). -/
def toBlocks : Nat → List Nat → List (List Nat)
  | 0, _ => []
  | _ + 1, [] => []
  | fuel + 1, l => l.take 16 :: toBlocks fuel (l.drop 16)

/-- Extend the 16 block words to 64 schedule words.  `ws` is kept in
reverse (most recent first). -/
def sha256Schedule : Nat → List Nat → List Nat
  | 0, ws => ws
  | fuel + 1, ws =>
    let w2 := ws.getD 1 0
    let w7 := ws.getD 6 0
    let w15 := ws.getD 14 0
    let w16 := ws.getD 15 0
    sha256Schedule fuel (add32 (add32 (smallSigma1 w2) w7) (add32 (smallSigma0 w15) w16) :: ws)

/-- One round of the SHA-256 compression function. -/
def sha256Round (st : List Nat) (kw : Nat × Nat) : List Nat :=
  match st with
  | [a, b, c, d, e, f, g, h] =>
    let t1 := add32 (add32 h (bigSigma1 e)) (add32 (chFn e f g) (add32 kw.1 kw.2))
    let t2 := add32 (bigSigma0 a) (majFn a b c)
    [add32 t1 t2, a, b, c, add32 d t1, e, f, g]
  | st => st

/-- Process one 16-word block, updating the 8-word chaining state. -/
def sha256Block (h : List Nat) (block : List Nat) : List Nat :=
  let ws := (sha256Schedule 48 block.reverse).reverse
  let st := (ws.zip sha256K).foldl sha256Round h
  (h.zip st).map fun p => add32 p.1 p.2

def sha256Bytes (msg : List Nat) : List Nat :=
  let padded := sha256Pad msg
  let words := bytesToWords (padded.length) padded
  let blocks := toBlocks (words.length + 1) words
  let hFinal := blocks.foldl sha256Block sha256H0
  hFinal.flatMap (natToBytesBE 4)

def hexDigitChar (n : Nat) : Char :=
  if n < 10 then Char.ofNat (48 + n) else Char.ofNat (87 + n)

def byteToHex (b : Nat) : List Char :=
  [hexDigitChar (b / 16 % 16), hexDigitChar (b % 16)]

/-- UTF-8 encoding of a code point, as byte values. -/
def utf8EncodeChar (c : Nat) : List Nat :=
  if c < 0x80 then [c]
  else if c < 0x800 then [0xc0 ||| (c >>> 6), 0x80 ||| (c &&& 0x3f)]
  else if c < 0x10000 then
    [0xe0 ||| (c >>> 12), 0x80 ||| ((c >>> 6) &&& 0x3f), 0x80 ||| (c &&& 0x3f)]
  else
    [0xf0 ||| (c >>> 18), 0x80 ||| ((c >>> 12) &&& 0x3f), 0x80 ||| ((c >>> 6) &&& 0x3f), 0x80 ||| (c &&& 0x3f)]

def strBytes (s : String) : List Nat :=
  s.data.flatMap fun c => utf8EncodeChar c.toNat

/-- Hex-encoded SHA-256 of a string's UTF-8 bytes: the composition of
Go's `sha256.Sum` and `hex.EncodeToString` used by the store. -/
def sha256Hex (s : String) : String :=
  ⟨(sha256Bytes (strBytes s)).flatMap byteToHex⟩

/-! ## The hash ledger

`computeHash` and `computeHistoryHash`, translated from
`PostgresStorage` (`postgres.go`).  Go writes the three strings into one
hasher, i.e. it hashes their concatenation.
-/

/-- `computeHash(prevHash, role, content)`: SHA-256 of the concatenation
of the previous hash, the role and the content, hex encoded. -/
def computeHash (prevHash role content : String) : String :=
  sha256Hex (prevHash ++ role ++ content)

/-! ## JSON values

The OpenAI interceptor parses request bodies with `encoding/json` into a
generic `map[string]any` and re-marshals it.  We model JSON values with
an inductive type.  Numbers are modelled as integers (the claims under
study never depend on fractional values; floating point is outside the
embedding).  Objects are association lists; the parser builds them with
last-key-wins semantics like Go's map unmarshalling, and the serializer
sorts keys like Go's map marshalling.
-/

inductive Json where
  | null : Json
  | bool (b : Bool) : Json
  | num (n : Int) : Json
  | str (s : String) : Json
  | arr (items : List Json) : Json
  | obj (fields : List (String × Json)) : Json

/-- First binding of key `k` (objects built by the parser have unique keys). -/
def lookupField (fields : List (String × Json)) (k : String) : Option Json :=
  match fields with
  | [] => none
  | (k', v) :: rest => if k' == k then some v else lookupField rest k

/-- Replace the first binding of `k` (append if absent): the value-level
effect of a Go map assignment. -/
def setField (fields : List (String × Json)) (k : String) (v : Json) : List (String × Json) :=
  match fields with
  | [] => [(k, v)]
  | (k', v') :: rest => if k' == k then (k, v) :: rest else (k', v') :: setField rest k v

/-! ### JSON parsing

A fuel-based recursive-descent parser over `List Char`, standing in for
`encoding/json.Unmarshal`.  It accepts the JSON the interceptors
exchange (objects, arrays, strings with escapes, integers, booleans,
null); non-integer numbers are rejected (see the note on numbers above).
-/

def isJsonWs (c : Char) : Bool :=
  c == ' ' || c == '\t' || c == '\n' || c == '\r'

def skipWs (l : List Char) : List Char :=
  match l with
  | [] => []
  | c :: rest => if isJsonWs c then skipWs rest else l

def hexVal (c : Char) : Option Nat :=
  let n := c.toNat
  if 48 ≤ n && n ≤ 57 then some (n - 48)
  else if 97 ≤ n && n ≤ 102 then some (n - 87)
  else if 65 ≤ n && n ≤ 70 then some (n - 55)
  else none

/-- Parse the remainder of a JSON string literal (after the opening
quote), returning the decoded characters and the rest of the input. -/
def parseStringRest : Nat → List Char → Option (List Char × List Char)
  | 0, _ => none
  | _ + 1, [] => none
  | fuel + 1, c :: rest =>
    if c == '"' then some ([], rest)
    else if c == '\\' then
      match rest with
      | [] => none
      | e :: rest' =>
        if e == 'u' then
          match rest' with
          | h1 :: h2 :: h3 :: h4 :: rest'' =>
            match hexVal h1, hexVal h2, hexVal h3, hexVal h4 with
            | some a, some b, some c', some d =>
              let code := ((a * 16 + b) * 16 + c') * 16 + d
              match parseStringRest fuel rest'' with
              | some (s, rem) => some ((Char.ofNat code) :: s, rem)
              | none => none
            | _, _, _, _ => none
          | _ => none
        else
          let dec : Option Char :=
            if e == '"' then some '"'
            else if e == '\\' then some '\\'
            else if e == '/' then some '/'
            else if e == 'b' then some (Char.ofNat 8)
            else if e == 'f' then some (Char.ofNat 12)
            else if e == 'n' then some '\n'
            else if e == 'r' then some '\r'
            else if e == 't' then some '\t'
            else none
          match dec with
          | none => none
          | some d =>
            match parseStringRest fuel rest' with
            | some (s, rem) => some (d :: s, rem)
            | none => none
    else
      match parseStringRest fuel rest with
      | some (s, rem) => some (c :: s, rem)
      | none => none

def isDigit (c : Char) : Bool := '0' ≤ c && c ≤ '9'

def parseDigits : Nat → List Char → Nat → (Nat × List Char)
  | 0, l, acc => (acc, l)
  | fuel + 1, l, acc =>
    match l with
    | c :: rest =>
      if isDigit c then parseDigits fuel rest (acc * 10 + (c.toNat - '0'.toNat))
      else (acc, l)
    | [] => (acc, [])

/-- Does the input start with the given keyword? Returns the rest. -/
def parseKeyword (kw : List Char) (l : List Char) : Option (List Char) :=
  match kw, l with
  | [], rest => some rest
  | k :: kw', c :: rest => if c == k then parseKeyword kw' rest else none
  | _ :: _, [] => none

mutual

/-- Parse one JSON value from the input (leading whitespace allowed). -/
def parseValue : Nat → List Char → Option (Json × List Char)
  | 0, _ => none
  | fuel + 1, l =>
    match skipWs l with
    | [] => none
    | c :: rest =>
      if c == '{' then parseMembers fuel rest []
      else if c == '[' then parseElements fuel rest []
      else if c == '"' then
        match parseStringRest (rest.length + 1) rest with
        | some (s, rem) => some (.str ⟨s⟩, rem)
        | none => none
      else if c == 't' then
        (parseKeyword ['r', 'u', 'e'] rest).map fun rem => (.bool true, rem)
      else if c == 'f' then
        (parseKeyword ['a', 'l', 's', 'e'] rest).map fun rem => (.bool false, rem)
      else if c == 'n' then
        (parseKeyword ['u', 'l', 'l'] rest).map fun rem => (.null, rem)
      else if c == '-' then
        match rest with
        | d :: _ =>
          if isDigit d then
            let (n, rem) := parseDigits (rest.length + 1) rest 0
            match rem with
            | e :: _ => if e == '.' || e == 'e' || e == 'E' then none else some (.num (-(n : Int)), rem)
            | [] => some (.num (-(n : Int)), [])
          else none
        | [] => none
      else if isDigit c then
        let (n, rem) := parseDigits (rest.length + 2) (c :: rest) 0
        match rem with
        | e :: _ => if e == '.' || e == 'e' || e == 'E' then none else some (.num (n : Int), rem)
        | [] => some (.num (n : Int), [])
      else none

/-- Parse object members after `{`, accumulating fields with
last-key-wins (Go map) semantics. -/
def parseMembers : Nat → List Char → List (String × Json) → Option (Json × List Char)
  | 0, _, _ => none
  | fuel + 1, l, acc =>
    match skipWs l with
    | [] => none
    | c :: rest =>
      if c == '}' then some (.obj acc, rest)
      else if c == ',' && !acc.isEmpty then parseMember fuel rest acc
      else if acc.isEmpty then parseMember fuel (c :: rest) acc
      else none

/-- Parse one `"key": value` member. -/
def parseMember : Nat → List Char → List (String × Json) → Option (Json × List Char)
  | 0, _, _ => none
  | fuel + 1, l, acc =>
    match skipWs l with
    | [] => none
    | c :: rest =>
      if c == '"' then
        match parseStringRest (rest.length + 1) rest with
        | some (k, rem) =>
          match skipWs rem with
          | ':' :: rem' =>
            match parseValue fuel rem' with
            | some (v, rem'') => parseMembers fuel rem'' (setField acc ⟨k⟩ v)
            | none => none
          | _ => none
        | none => none
      else none

/-- Parse array elements after `[`. -/
def parseElements : Nat → List Char → List Json → Option (Json × List Char)
  | 0, _, _ => none
  | fuel + 1, l, acc =>
    match skipWs l with
    | [] => none
    | c :: rest =>
      if c == ']' then some (.arr acc.reverse, rest)
      else
        let start := if c == ',' && !acc.isEmpty then rest else if acc.isEmpty then c :: rest else []
        match start with
        | [] => none
        | _ =>
          match parseValue fuel start with
          | some (v, rem) => parseElements fuel rem (v :: acc)
          | none => none

end

/-- `json.Unmarshal`: parse a whole input as a single JSON value
(trailing whitespace only). -/
def parseJson (l : List Char) : Option Json :=
  match parseValue (2 * l.length + 4) l with
  | some (v, rem) => if (skipWs rem).isEmpty then some v else none
  | none => none

/-! ### JSON serialization

Standing in for `encoding/json.Marshal`.  Go marshals `map[string]any`
with keys in sorted (byte-lexicographic) order; we sort object fields
the same way.  Recursion is fuel-based on `sizeOf` so concrete bodies
serialize inside the kernel.
-/

/-- Byte-lexicographic `≤` on strings, the order Go sorts map keys in. -/
def strLe (a b : List Char) : Bool :=
  match a, b with
  | [], _ => true
  | _ :: _, [] => false
  | c :: a', d :: b' => if c.toNat < d.toNat then true else if d.toNat < c.toNat then false else strLe a' b'

def insertSorted {α : Type} (p : String × α) (l : List (String × α)) : List (String × α) :=
  match l with
  | [] => [p]
  | q :: rest => if strLe p.1.data q.1.data then p :: q :: rest else q :: insertSorted p rest

/-- Insertion sort of key/value pairs by key, in Go's map-marshal key
order (byte-lexicographic). -/
def sortFields {α : Type} (l : List (String × α)) : List (String × α) :=
  match l with
  | [] => []
  | p :: rest => insertSorted p (sortFields rest)

/-- JSON string-literal escaping (`"` , `\` and ASCII control bytes; Go
additionally HTML-escapes `<`, `>` and `&`, which none of the payloads
under study contain). -/
def escapeChar (c : Char) : List Char :=
  if c == '"' then ['\\', '"']
  else if c == '\\' then ['\\', '\\']
  else if c == '\n' then ['\\', 'n']
  else if c == '\r' then ['\\', 'r']
  else if c == '\t' then ['\\', 't']
  else if c.toNat < 32 then
    ['\\', 'u', '0', '0'] ++ byteToHex c.toNat
  else [c]

def serializeString (s : String) : List Char :=
  '"' :: s.data.flatMap escapeChar ++ ['"']

def serializeInt (n : Int) : List Char :=
  (toString n).data

/-- Join already-serialized object fields with `:` and `,`. -/
def joinFields : List (String × List Char) → List Char
  | [] => []
  | [(k, v)] => serializeString k ++ ':' :: v
  | (k, v) :: rest => serializeString k ++ ':' :: v ++ ',' :: joinFields rest

mutual

/-- `json.Marshal` at the value level (object keys sorted, like Go's
map marshalling). -/
def serializeJson : Json → List Char
  | .null => "null".data
  | .bool true => "true".data
  | .bool false => "false".data
  | .num n => serializeInt n
  | .str s => serializeString s
  | .arr items => '[' :: serializeItems items ++ [']']
  | .obj fields => '{' :: joinFields (sortFields (serializeFields fields)) ++ ['}']

def serializeItems : List Json → List Char
  | [] => []
  | [j] => serializeJson j
  | j :: rest => serializeJson j ++ ',' :: serializeItems rest

def serializeFields : List (String × Json) → List (String × List Char)
  | [] => []
  | (k, v) :: rest => (k, serializeJson v) :: serializeFields rest

end

/-! ## OpenAI chat interceptor: request mutation

`ChatInterceptor.RequestInterceptor`
(`openai_chat_interceptor.go`): the body is parsed into a generic
`map[string]any`; when the `stream` field is the boolean `true`,
`stream_options.include_usage` is set to `true`, the map is re-marshalled
and `Content-Length` is updated; otherwise the original bytes are kept.
(`Content-Length` counts bytes; the embedding counts characters, which
agree on the ASCII payloads exchanged here.)
-/

/-- `stream, _ := chatReqMap["stream"].(bool)`: `false` when the field
is absent or not a boolean. -/
def streamFlag (fields : List (String × Json)) : Bool :=
  match lookupField fields "stream" with
  | some (.bool b) => b
  | _ => false

/-- `chatReqMap["stream_options"].(map[string]any)`: the existing
`stream_options` object, or a fresh empty map when it is absent or not
an object. -/
def streamOptionsOf (fields : List (String × Json)) : List (String × Json) :=
  match lookupField fields "stream_options" with
  | some (.obj o) => o
  | _ => []

/-- The `stream_options.include_usage = true` mutation on the parsed
map: an existing `stream_options` object is kept (other keys intact), a
missing or non-object one is replaced by a fresh map. -/
def mutateChatRequestMap (fields : List (String × Json)) : List (String × Json) :=
  setField fields "stream_options" (.obj (setField (streamOptionsOf fields) "include_usage" (.bool true)))

structure InterceptedBody where
  body : List Char
  /-- `some n` iff the interceptor set `req.ContentLength` and the
  `Content-Length` header, to `n`; `none` means both were left untouched. -/
  contentLengthSet : Option Nat

/-- The body-rewriting core of `RequestInterceptor`. -/
def requestInterceptorBody (orig : List Char) : InterceptedBody :=
  match parseJson orig with
  | some (.obj fields) =>
    if streamFlag fields then
      let newBody := serializeJson (.obj (mutateChatRequestMap fields))
      { body := newBody, contentLengthSet := some newBody.length }
    else { body := orig, contentLengthSet := none }
  | _ => { body := orig, contentLengthSet := none }

/-! ## OpenAI chat interceptor: response structures and SSE accumulation

The typed response structures (`chatResponse`, `chatResponseChoice`,
`chatMessage`, `chatToolCall`, `chatToolFunction`, `chatUsage`) and the
`ChunkInterceptor` accumulation logic, translated from
`openai_chat_interceptor.go`.  Note that Go's `chatToolCall` has *no*
`index` field: the streamed `index` member of a delta tool call is
dropped at decode time.

Decode (`json.Unmarshal` into the typed structs): a missing or `null`
member leaves the zero value; a type mismatch fails the whole decode
(the interceptor then skips the line).  Token counts, `created` and
`index` are modelled as `Nat`; Go would accept negative values there
(and panic on a negative choice index), a corner no OpenAI upstream
produces.
-/

structure ChatToolFunction where
  name : String
  arguments : String
deriving DecidableEq, Repr

structure ChatToolCall where
  id : String
  type : String
  function : ChatToolFunction
deriving DecidableEq, Repr

def emptyToolCall : ChatToolCall :=
  { id := "", type := "", function := { name := "", arguments := "" } }

structure ChatMessage where
  role : String
  content : String
  toolCalls : List ChatToolCall
  toolCallId : String
deriving DecidableEq, Repr

def emptyChatMessage : ChatMessage :=
  { role := "", content := "", toolCalls := [], toolCallId := "" }

structure ChatResponseChoice where
  index : Nat
  message : ChatMessage
  delta : ChatMessage
  finishReason : String
deriving DecidableEq, Repr

def emptyChoice : ChatResponseChoice :=
  { index := 0, message := emptyChatMessage, delta := emptyChatMessage, finishReason := "" }

structure ChatUsage where
  promptTokens : Nat
  completionTokens : Nat
  totalTokens : Nat
deriving DecidableEq, Repr

structure ChatResponse where
  id : String
  object : String
  created : Nat
  model : String
  choices : List ChatResponseChoice
  usage : ChatUsage
deriving DecidableEq, Repr

/-- The zero `chatResponse`: the accumulated response in a fresh
`chatState`. -/
def emptyChatResponse : ChatResponse :=
  { id := "", object := "", created := 0, model := "",
    choices := [], usage := { promptTokens := 0, completionTokens := 0, totalTokens := 0 } }

def decStringField (fields : List (String × Json)) (k : String) : Option String :=
  match lookupField fields k with
  | none => some ""
  | some .null => some ""
  | some (.str s) => some s
  | some _ => none

def decNatField (fields : List (String × Json)) (k : String) : Option Nat :=
  match lookupField fields k with
  | none => some 0
  | some .null => some 0
  | some (.num n) => if n < 0 then none else some n.toNat
  | some _ => none

def decArrField (fields : List (String × Json)) (k : String) : Option (List Json) :=
  match lookupField fields k with
  | none => some []
  | some .null => some []
  | some (.arr items) => some items
  | some _ => none

def decodeToolFunction (j : Json) : Option ChatToolFunction :=
  match j with
  | .null => some { name := "", arguments := "" }
  | .obj f => do
    let name ← decStringField f "name"
    let arguments ← decStringField f "arguments"
    some { name, arguments }
  | _ => none

def decodeToolCall (j : Json) : Option ChatToolCall :=
  match j with
  | .null => some emptyToolCall
  | .obj f => do
    let id ← decStringField f "id"
    let type ← decStringField f "type"
    let function ← match lookupField f "function" with
      | none => some { name := "", arguments := "" }
      | some v => decodeToolFunction v
    some { id, type, function }
  | _ => none

def decodeChatMessage (j : Json) : Option ChatMessage :=
  match j with
  | .null => some emptyChatMessage
  | .obj f => do
    let role ← decStringField f "role"
    let content ← decStringField f "content"
    let tcs ← decArrField f "tool_calls"
    let toolCalls ← tcs.mapM decodeToolCall
    let toolCallId ← decStringField f "tool_call_id"
    some { role, content, toolCalls, toolCallId }
  | _ => none

def decodeChoice (j : Json) : Option ChatResponseChoice :=
  match j with
  | .null => some emptyChoice
  | .obj f => do
    let index ← decNatField f "index"
    let message ← match lookupField f "message" with
      | none => some emptyChatMessage
      | some v => decodeChatMessage v
    let delta ← match lookupField f "delta" with
      | none => some emptyChatMessage
      | some v => decodeChatMessage v
    let finishReason ← decStringField f "finish_reason"
    some { index, message, delta, finishReason }
  | _ => none

def decodeUsage (j : Json) : Option ChatUsage :=
  match j with
  | .null => some { promptTokens := 0, completionTokens := 0, totalTokens := 0 }
  | .obj f => do
    let promptTokens ← decNatField f "prompt_tokens"
    let completionTokens ← decNatField f "completion_tokens"
    let totalTokens ← decNatField f "total_tokens"
    some { promptTokens, completionTokens, totalTokens }
  | _ => none

def decodeChatResponse (j : Json) : Option ChatResponse :=
  match j with
  | .obj f => do
    let id ← decStringField f "id"
    let object ← decStringField f "object"
    let created ← decNatField f "created"
    let model ← decStringField f "model"
    let cs ← decArrField f "choices"
    let choices ← cs.mapM decodeChoice
    let usage ← match lookupField f "usage" with
      | none => some { promptTokens := 0, completionTokens := 0, totalTokens := 0 }
      | some v => decodeUsage v
    some { id, object, created, model, choices, usage }
  | _ => none

/-! ### Tool-call accumulation

The inner loop of `ChunkInterceptor` over `choice.Delta.ToolCalls`:
Go iterates `for i, tc := range ...` and indexes the accumulated list by
the *position* `i`; the preceding `== nil` check allocates a zero-filled
list of the delta's length on the first delta that carries tool calls
(extensionally the same as treating an empty list this way, which is how
the `nil` test is rendered here).
-/

/-- In-place update of one accumulated tool call by a delta entry:
non-empty `id`, `type` and `function.name` overwrite, `function.arguments`
is concatenated. -/
def updateToolCall (old tc : ChatToolCall) : ChatToolCall :=
  { id := if tc.id != "" then tc.id else old.id,
    type := if tc.type != "" then tc.type else old.type,
    function :=
      { name := if tc.function.name != "" then tc.function.name else old.function.name,
        arguments := old.function.arguments ++ tc.function.arguments } }

def applyDeltaToolCallsFrom : List ChatToolCall → Nat → List ChatToolCall → List ChatToolCall
  | existing, _, [] => existing
  | existing, i, tc :: rest =>
    if existing.length ≤ i then applyDeltaToolCallsFrom (existing ++ [tc]) (i + 1) rest
    else applyDeltaToolCallsFrom (existing.set i (updateToolCall (existing.getD i emptyToolCall) tc)) (i + 1) rest

/-- The tool-call accumulation step of `ChunkInterceptor` (only entered
when the delta's tool-call list is non-empty). -/
def applyDeltaToolCalls (existing deltas : List ChatToolCall) : List ChatToolCall :=
  let existing := if existing.isEmpty then List.replicate deltas.length emptyToolCall else existing
  applyDeltaToolCallsFrom existing 0 deltas

/-- Modelled from the spec: the spec's accumulation rule for
`delta.tool_calls` indexes the choice's tool-call list by each streamed
tool call's `index` *field* (a field Go's `chatToolCall` does not even
decode); a new entry is created when that index is beyond the current
length, otherwise the entry at that index is updated in place.  Each
delta entry is paired with its `index` field. -/
def applyDeltaToolCallsSpec (existing : List ChatToolCall) (deltas : List (Nat × ChatToolCall)) : List ChatToolCall :=
  deltas.foldl
    (fun ex p =>
      if ex.length ≤ p.1 then ex ++ [p.2]
      else ex.set p.1 (updateToolCall (ex.getD p.1 emptyToolCall) p.2))
    existing

/-! ### Per-delta accumulation and SSE line handling -/

/-- The body of `ChunkInterceptor`'s loop over `chatResp.Choices`. -/
def processChoice (acc : ChatResponse) (choice : ChatResponseChoice) : ChatResponse :=
  let choices :=
    if acc.choices.length ≤ choice.index
    then acc.choices ++ List.replicate (choice.index + 1 - acc.choices.length) emptyChoice
    else acc.choices
  let cur := choices.getD choice.index emptyChoice
  let msg := cur.message
  let msg := { msg with content := msg.content ++ choice.delta.content }
  let msg := if choice.delta.role != "" then { msg with role := choice.delta.role } else msg
  let msg :=
    if !choice.delta.toolCalls.isEmpty
    then { msg with toolCalls := applyDeltaToolCalls msg.toolCalls choice.delta.toolCalls }
    else msg
  let cur :=
    { cur with
      message := msg,
      finishReason := if choice.finishReason != "" then choice.finishReason else cur.finishReason }
  { acc with choices := choices.set choice.index cur }

/-- Accumulate one parsed streaming delta object into the state
(`ChunkInterceptor`, after a `data: ` line has been parsed). -/
def processDelta (acc : ChatResponse) (chatResp : ChatResponse) : ChatResponse :=
  let acc :=
    if acc.id == ""
    then { acc with id := chatResp.id, model := chatResp.model, created := chatResp.created, object := chatResp.object }
    else acc
  let acc := chatResp.choices.foldl processChoice acc
  if chatResp.usage.totalTokens > 0 then { acc with usage := chatResp.usage } else acc

/-- The ASCII subset of the white space `strings.TrimSpace` strips. -/
def isGoSpace (c : Char) : Bool :=
  c == ' ' || c == '\t' || c == '\n' || c == Char.ofNat 11 || c == Char.ofNat 12 || c == '\r'

def dropWhileSpace : List Char → List Char
  | [] => []
  | c :: rest => if isGoSpace c then dropWhileSpace rest else c :: rest

def trimSpace (l : List Char) : List Char :=
  (dropWhileSpace (dropWhileSpace l).reverse).reverse

/-- `strings.Split(chunk, "\n")`. -/
def splitOnNl : List Char → List (List Char)
  | [] => [[]]
  | c :: rest =>
    if c == '\n' then [] :: splitOnNl rest
    else
      match splitOnNl rest with
      | l :: ls => (c :: l) :: ls
      | [] => [[c]]

/-- Handle one line of a streamed chunk: trim, skip blanks and the
`data: [DONE]` sentinel, strip the `data: ` prefix and accumulate the
parsed object; unparseable lines are skipped. -/
def processLine (st : ChatResponse) (rawLine : List Char) : ChatResponse :=
  let line := trimSpace rawLine
  if line.isEmpty || line == "data: [DONE]".data then st
  else if "data: ".data.isPrefixOf line then
    match parseJson (line.drop 6) with
    | some j =>
      match decodeChatResponse j with
      | some resp => processDelta st resp
      | none => st
    | none => st
  else st

/-- `ChunkInterceptor` on one chunk: split on newlines and handle each
line.  No cross-chunk buffer exists: any line fragment cut by a chunk
boundary is handled (and, if unparseable, dropped) on its own. -/
def processChunk (st : ChatResponse) (chunk : List Char) : ChatResponse :=
  (splitOnNl chunk).foldl processLine st

/-- Feed a whole sequence of chunks through `ChunkInterceptor`. -/
def processChunks (st : ChatResponse) (chunks : List (List Char)) : ChatResponse :=
  chunks.foldl processChunk st




/-! ## Conversation store

The `PostgresStorage` backend (`postgres.go`), modelled as a pure state:
lists of conversations, branches and messages in creation order
(`created_at` order), with a counter supplying fresh IDs (standing in
for generated UUIDs; `uuid.Nil` arguments are modelled as `none`).
Failing SQL statements become `Except.error`; a failed transaction rolls
back, so the error branch simply discards the tentative state.  The Go
`SimpleMessage.Tools` field (reusable tool definitions) is never
consulted by the algorithms under study and is omitted.
-/

structure SimpleMessage where
  role : String
  content : String
  model : String := ""
  promptTokens : Nat := 0
  completionTokens : Nat := 0
  promptEvalDuration : Nat := 0
  evalDuration : Nat := 0
  clientHost : String := ""
  upstreamHost : String := ""
  metadata : List (String × Json) := []
  toolCalls : List ChatToolCall := []
  toolCallId : String := ""

structure Message where
  simple : SimpleMessage
  id : Nat
  conversationId : Nat
  branchId : Nat
  sequenceNumber : Nat
  cumulativeHash : String
  childBranchIds : List Nat
  parentMessageId : Option Nat
  upstreamStatusCode : Nat

structure Branch where
  id : Nat
  conversationId : Nat
  parentBranchId : Option Nat
  parentMessageId : Option Nat

structure Conversation where
  id : Nat
  requestType : String
  metadata : List (String × Json)

structure StorageState where
  conversations : List Conversation
  branches : List Branch
  messages : List Message
  nextId : Nat

def emptyStorage : StorageState :=
  { conversations := [], branches := [], messages := [], nextId := 0 }

def lookupMessage (s : StorageState) (id : Nat) : Option Message :=
  s.messages.find? (fun m => m.id == id)

def lookupBranch (s : StorageState) (id : Nat) : Option Branch :=
  s.branches.find? (fun b => b.id == id)

def lookupConversation (s : StorageState) (id : Nat) : Option Conversation :=
  s.conversations.find? (fun c => c.id == id)

def conversationRequestType (s : StorageState) (cid : Nat) : Option String :=
  (lookupConversation s cid).map (·.requestType)

/-- `computeHistoryHash`: chain `computeHash` over the history, seeded
with the empty string. -/
def computeHistoryHash (history : List SimpleMessage) : String :=
  history.foldl (fun h m => computeHash h m.role m.content) ""

/-- `CreateConversation`: insert a conversation and its root branch
(no parent branch, no parent message). -/
def createConversation (s : StorageState) (metadata : List (String × Json)) (requestType : String) :
    StorageState × Conversation × Branch :=
  let conv : Conversation := { id := s.nextId, requestType := requestType, metadata := metadata }
  let branch : Branch :=
    { id := s.nextId + 1, conversationId := conv.id, parentBranchId := none, parentMessageId := none }
  ({ s with
      conversations := s.conversations ++ [conv],
      branches := s.branches ++ [branch],
      nextId := s.nextId + 2 },
   conv, branch)

/-- The `*storage.Message` argument of `AddMessage`: the fields the Go
code reads from it. -/
structure MessageInput where
  simple : SimpleMessage
  branchId : Option Nat := none
  upstreamStatusCode : Nat := 0

/-- The `INSERT INTO messages ... VALUES ((SELECT conversation_id FROM
branches WHERE id = $1), ...)` step shared by all `AddMessage` paths. -/
def insertMessage (s : StorageState) (branchId : Nat) (parentId : Option Nat)
    (lastHash : String) (lastSeq : Nat) (input : MessageInput) :
    Except String (StorageState × Message) :=
  match lookupBranch s branchId with
  | none => .error "null value in column conversation_id"
  | some b =>
    let msg : Message :=
      { simple := input.simple,
        id := s.nextId,
        conversationId := b.conversationId,
        branchId := branchId,
        sequenceNumber := lastSeq + 1,
        cumulativeHash := computeHash lastHash input.simple.role input.simple.content,
        childBranchIds := [],
        parentMessageId := parentId,
        upstreamStatusCode := input.upstreamStatusCode }
    .ok ({ s with messages := s.messages ++ [msg], nextId := s.nextId + 1 }, msg)

/-- The `UPDATE messages SET child_branch_ids = array_append(...)` step
of the fork path: record the new branch on the parent message's
child-branch list. -/
def recordChildBranch (pid newBranchId : Nat) (m : Message) : Message :=
  if m.id == pid then { m with childBranchIds := m.childBranchIds ++ [newBranchId] } else m

/-- `AddMessage`, translated from `postgres.go`: with a parent, read the
parent's branch, hash and sequence number; fork into a new branch iff
the parent already has at least one child message (recording the new
branch on the parent's child-branch list); without a parent, require a
branch ID and seed the chain with the empty hash. -/
def addMessage (s : StorageState) (parentMessageId : Option Nat) (input : MessageInput) :
    Except String (StorageState × Message) :=
  match parentMessageId with
  | some pid =>
    match lookupMessage s pid with
    | none => .error "sql: no rows in result set"
    | some parent =>
      let hasChildren := s.messages.any (fun m => m.parentMessageId == some pid)
      if hasChildren then
        match lookupBranch s parent.branchId with
        | none => .error "null value in column conversation_id"
        | some pb =>
          let newBranch : Branch :=
            { id := s.nextId,
              conversationId := pb.conversationId,
              parentBranchId := some parent.branchId,
              parentMessageId := some pid }
          let s1 : StorageState :=
            { s with
              branches := s.branches ++ [newBranch],
              messages := s.messages.map (recordChildBranch pid newBranch.id),
              nextId := s.nextId + 1 }
          insertMessage s1 newBranch.id (some pid) parent.cumulativeHash parent.sequenceNumber input
      else
        insertMessage s parent.branchId (some pid) parent.cumulativeHash parent.sequenceNumber input
  | none =>
    match input.branchId with
    | none => .error "branchID is required when parentMessageID is empty"
    | some bid => insertMessage s bid none "" 0 input

/-- `FindMessageByHistory`: most recently created message whose
cumulative hash equals the history's hash, restricted to conversations
of the same request type; empty history matches nothing. -/
def findMessageByHistory (s : StorageState) (history : List SimpleMessage) (requestType : String) :
    Option Nat :=
  if history.isEmpty then none
  else
    let h := computeHistoryHash history
    ((s.messages.filter (fun m =>
        m.cumulativeHash == h && conversationRequestType s m.conversationId == some requestType)).getLast?).map (·.id)

/-! ## The saving mixin

`SavingInterceptor.SaveToStorage` (`saving_interceptor.go`): find the
deepest persisted prefix of the history (with the single-system-message
special case), create a conversation when nothing is reused, replay the
unmatched tail, then append the assistant message.  Store errors abort
the rest of the save, keeping whatever was already appended.
-/

/-- The prefix-search loop, shrinking the history one trailing message
at a time.  Returns the chosen parent (none forces a new conversation)
and the length of the matched prefix (the number of history messages
*not* replayed).  Fuel-based (fuel = history length) so it reduces in
the kernel. -/
def findMatchAux (s : StorageState) (rt : String) : Nat → List SimpleMessage → Option Nat × Nat
  | 0, _ => (none, 0)
  | fuel + 1, cur =>
    match cur with
    | [] => (none, 0)
    | first :: _ =>
      match findMessageByHistory s cur rt with
      | some pid =>
        -- Do NOT reuse the match if it is exactly one message of role "system".
        if cur.length == 1 && first.role == "system" then (none, 0)
        else (some pid, cur.length)
      | none => findMatchAux s rt fuel cur.dropLast

def findMatch (s : StorageState) (history : List SimpleMessage) (rt : String) : Option Nat × Nat :=
  findMatchAux s rt history.length history

/-- Step 3 of the mixin: append the unmatched history tail, threading
the parent ID; the branch ID is only passed for the first message after
a fresh conversation.  `none` in the second component means a store
error aborted the save (the state keeps the messages already added). -/
def appendHistory : StorageState → Option Nat → Option Nat → List SimpleMessage →
    StorageState × Option (Option Nat)
  | s, parent, _, [] => (s, some parent)
  | s, parent, branchId, m :: rest =>
    match addMessage s parent { simple := m, branchId := branchId } with
    | .ok (s', msg) => appendHistory s' (some msg.id) none rest
    | .error _ => (s, none)

/-- Step 4's guard: the assistant is appended iff it has content, tool
calls, or a non-zero status code. -/
def assistantGuard (assistant : SimpleMessage) (statusCode : Nat) : Bool :=
  assistant.content != "" || !assistant.toolCalls.isEmpty || statusCode != 0

/-- `SaveToStorage`. -/
def saveToStorage (s : StorageState) (history : List SimpleMessage) (assistant : SimpleMessage)
    (statusCode : Nat) (requestType : String) : StorageState :=
  let pk := findMatch s history requestType
  let sb : StorageState × Option Nat :=
    match pk.1 with
    | some _ => (s, none)
    | none =>
      let model :=
        match history with
        | m :: _ => m.model
        | [] => if assistant.model != "" then assistant.model else ""
      let (s', _, branch) := createConversation s [("model", .str model)] requestType
      (s', some branch.id)
  match appendHistory sb.1 pk.1 sb.2 (history.drop pk.2) with
  | (s2, none) => s2
  | (s2, some parent2) =>
    if assistantGuard assistant statusCode then
      match addMessage s2 parent2 { simple := assistant, upstreamStatusCode := statusCode } with
      | .ok (s3, _) => s3
      | .error _ => s2
    else s2

/-- `true` iff an optional ID is below the fresh-ID counter. -/
def optIdBelow (o : Option Nat) (n : Nat) : Bool :=
  match o with
  | none => true
  | some p => p < n

/-- Well-formedness of a storage state: IDs are below the fresh-ID
counter and duplicate-free, every message sits on an existing branch of
its own conversation, and every branch belongs to an existing
conversation.  `emptyStorage` is well formed and (as proved below) the
store operations preserve this. -/
abbrev WellFormed (s : StorageState) : Prop :=
  (∀ m ∈ s.messages, m.id < s.nextId ∧
    optIdBelow m.parentMessageId s.nextId = true ∧
    ∃ b ∈ s.branches, b.id = m.branchId ∧ b.conversationId = m.conversationId) ∧
  (∀ b ∈ s.branches, b.id < s.nextId ∧ ∃ c ∈ s.conversations, c.id = b.conversationId) ∧
  (∀ c ∈ s.conversations, c.id < s.nextId) ∧
  (s.messages.map (·.id)).Nodup ∧
  (s.branches.map (·.id)).Nodup ∧
  (s.conversations.map (·.id)).Nodup

/-! ## Proxy engine hook dispatch

`ProxyHandler.ServeHTTP` / `ServeHTTP2` (`proxy.go`), modelled as a
function from the upstream's observable behaviour to the sequence of
interceptor invocations, the status written to the client, and the error
`ServeHTTP2` returns.  The upstream behaviour is a transport-level
failure of `Client.Do`, or a response carrying its status, its
`Transfer-Encoding` list, the chunks delivered before the stream ended,
and whether the body phase ended in a read or write error (I/O
nondeterminism is folded into which chunks were delivered before the
failure).
-/

inductive PError where
  | transport (msg : String)
  | body (msg : String)
  | upstreamStatus (code : Nat)
deriving DecidableEq, Repr

/-- The text of the Go `error` each case carries (`fmt.Errorf("upstream
returned status code %d", ...)` for the synthetic one). -/
def PError.message : PError → String
  | .transport m => m
  | .body m => m
  | .upstreamStatus code => "upstream returned status code " ++ toString code

inductive HookEvent where
  | requestHook
  | responseHook
  | contentHook
  | chunkHook
  | completeHook
  | errorHook (e : PError)
deriving DecidableEq, Repr

def isTerminalHook : HookEvent → Bool
  | .completeHook => true
  | .errorHook _ => true
  | _ => false

structure UpstreamResponse where
  status : Nat
  transferEncoding : List String
  chunks : List (List Nat)
  readError : Option String := none
  writeError : Option String := none

inductive Dispatch where
  | failure (msg : String)
  | success (r : UpstreamResponse)

/-- `len(resp.TransferEncoding) > 0 && resp.TransferEncoding[0] == "chunked"`. -/
def isChunkedResponse (r : UpstreamResponse) : Bool :=
  match r.transferEncoding with
  | [] => false
  | t :: _ => t == "chunked"

/-- `handleChunkedResponse`: each chunk read from the body is passed
through `ChunkInterceptor` (when an interceptor is registered) and
written; the copy loop ends in an error if reading or writing failed. -/
def handleChunkedResponse (hasInterceptor : Bool) (r : UpstreamResponse) :
    List HookEvent × Option String :=
  ((if hasInterceptor then r.chunks.map (fun _ => HookEvent.chunkHook) else []),
   match r.readError with
   | some e => some e
   | none => r.writeError)

/-- `handleRegularResponse`: read the whole body (a read error skips the
content hook), call `ContentInterceptor` once, then write. -/
def handleRegularResponse (hasInterceptor : Bool) (r : UpstreamResponse) :
    List HookEvent × Option String :=
  match r.readError with
  | some e => ([], some e)
  | none => ((if hasInterceptor then [HookEvent.contentHook] else []), r.writeError)

/-- `ServeHTTP2`: returns the hook invocations, the status code written
to the client, and the error result (transport failure answers 502;
after a successful body phase a status `≥ 400` synthesises the
"upstream returned status code N" error). -/
def serveHTTP2 (hasInterceptor : Bool) (d : Dispatch) : List HookEvent × Nat × Option PError :=
  let ev0 := if hasInterceptor then [HookEvent.requestHook] else []
  match d with
  | .failure m => (ev0, 502, some (.transport m))
  | .success r =>
    let ev1 := ev0 ++ (if hasInterceptor then [HookEvent.responseHook] else [])
    let body :=
      if isChunkedResponse r then handleChunkedResponse hasInterceptor r
      else handleRegularResponse hasInterceptor r
    match body.2 with
    | some e => (ev1 ++ body.1, r.status, some (.body e))
    | none =>
      if r.status ≥ 400 then (ev1 ++ body.1, r.status, some (.upstreamStatus r.status))
      else (ev1 ++ body.1, r.status, none)

structure ProxyOutcome where
  events : List HookEvent
  clientStatus : Nat

/-- `ServeHTTP`: run `ServeHTTP2`, then fire exactly one of
`OnError`/`OnComplete` depending on its result. -/
def serveHTTP (hasInterceptor : Bool) (d : Dispatch) : ProxyOutcome :=
  let out := serveHTTP2 hasInterceptor d
  { events :=
      out.1 ++
        (if hasInterceptor then
          match out.2.2 with
          | some e => [HookEvent.errorHook e]
          | none => [HookEvent.completeHook]
        else []),
    clientStatus := out.2.1 }

/-! ## Projections and shorthands used by the theorem statements -/

instance : Inhabited SimpleMessage := ⟨{ role := "", content := "" }⟩

/-- The (role, content) pair of a history message — the only data the
hash ledger consumes. -/
def roleContent (m : SimpleMessage) : String × String := (m.role, m.content)

/-- The (role, content) pair of a stored message. -/
def msgRoleContent (m : Message) : String × String := (m.simple.role, m.simple.content)

/-- The combined body-phase error of a response: the read error if any,
otherwise the write error. -/
def bodyPhaseError (r : UpstreamResponse) : Option String :=
  match r.readError with
  | some e => some e
  | none => r.writeError

/-- The error `ServeHTTP2` hands to the terminal hook: the transport
error on dispatch failure, else the body-phase error, else the synthetic
status error for `status ≥ 400`, else none. -/
def expectedResult (d : Dispatch) : Option PError :=
  match d with
  | .failure m => some (.transport m)
  | .success r =>
    match bodyPhaseError r with
    | some e => some (.body e)
    | none => if 400 ≤ r.status then some (.upstreamStatus r.status) else none

/-- The condition under which `OnError` (rather than `OnComplete`)
fires. -/
def onErrorCondition : Dispatch → Prop
  | .failure _ => True
  | .success r => bodyPhaseError r ≠ none ∨ 400 ≤ r.status

/-! # Theorems

From here on, only theorems: general-purpose helper lemmas first, then
one theorem (plus witness or counterexample) per claim.
-/

/-! ## Helper lemmas: association lists -/

theorem lookupField_setField_self (f : List (String × Json)) (k : String) (v : Json) :
    lookupField (setField f k v) k = some v := by
  induction f with
  | nil => simp [setField, lookupField]
  | cons p rest ih =>
    obtain ⟨k'', v''⟩ := p
    by_cases h : k'' = k
    · simp [setField, lookupField, h]
    · simp only [setField, lookupField]
      rw [if_neg (by simpa using h), lookupField]
      rw [if_neg (by simpa using h)]
      exact ih

theorem lookupField_setField_ne (f : List (String × Json)) (k : String) (v : Json)
    (k' : String) (h : k' ≠ k) :
    lookupField (setField f k v) k' = lookupField f k' := by
  induction f with
  | nil =>
    simp only [setField, lookupField]
    rw [if_neg (by simpa using fun hh => h hh.symm)]
  | cons p rest ih =>
    obtain ⟨a, w⟩ := p
    by_cases ha : a = k
    · subst ha
      simp only [setField, BEq.refl, if_true, lookupField]
      rw [if_neg (by simpa using fun hh => h hh.symm),
        if_neg (by simpa using fun hh => h hh.symm)]
    · simp only [setField]
      rw [if_neg (by simpa using ha)]
      by_cases hq : a = k'
      · simp [lookupField, hq]
      · simp only [lookupField]
        rw [if_neg (by simpa using hq), if_neg (by simpa using hq)]
        exact ih

/-! ## Helper lemmas: the hash ledger -/

theorem computeHistoryHash_congr_seed (l1 l2 : List SimpleMessage)
    (h : l1.map roleContent = l2.map roleContent) :
    ∀ seed : String,
      l1.foldl (fun h m => computeHash h m.role m.content) seed =
        l2.foldl (fun h m => computeHash h m.role m.content) seed := by
  induction l1 generalizing l2 with
  | nil =>
    cases l2 with
    | nil => intro seed; rfl
    | cons b bs => simp at h
  | cons a as ih =>
    cases l2 with
    | nil => simp at h
    | cons b bs =>
      simp only [List.map_cons, List.cons.injEq, roleContent, Prod.mk.injEq] at h
      intro seed
      simp only [List.foldl_cons, h.1.1, h.1.2]
      exact ih bs h.2 _

theorem computeHistoryHash_congr (l1 l2 : List SimpleMessage)
    (h : l1.map roleContent = l2.map roleContent) :
    computeHistoryHash l1 = computeHistoryHash l2 :=
  computeHistoryHash_congr_seed l1 l2 h ""

/-! ## Claim C1 -/

/-- C1, counterexample.  The claim states that two messages appended via
`AddMessage` have equal cumulative hashes iff their (role, content)
prefix sequences are identical.  Because `computeHash` hashes the bare
concatenation `prev ++ role ++ content`, the boundary between role and
content is not encoded: the single-message prefixes `("user","xhello")`
and `("userx","hello")` differ, yet both hash
`SHA256("" ++ "userxhello")`.  Here both messages are appended with
`AddMessage` as the first message of a root branch. -/
theorem c1_counterexample :
    ((addMessage (createConversation emptyStorage [] "chat").1 none
        { simple := { role := "user", content := "xhello" }, branchId := some 1 }).toOption.map
        (fun r => r.2.cumulativeHash)) =
      ((addMessage (createConversation emptyStorage [] "chat").1 none
        { simple := { role := "userx", content := "hello" }, branchId := some 1 }).toOption.map
        (fun r => r.2.cumulativeHash)) ∧
    ((addMessage (createConversation emptyStorage [] "chat").1 none
        { simple := { role := "user", content := "xhello" }, branchId := some 1 }).toOption.map
        (fun r => r.2.cumulativeHash)) ≠ none ∧
    roleContent { role := "user", content := "xhello" } ≠
      roleContent { role := "userx", content := "hello" } := by
  refine ⟨?_, by decide, by decide⟩
  decide

/-- C1, amended: the forward direction holds — the cumulative hash is a
function of the (role, content) prefix sequence alone, so identical
prefix sequences always yield identical hashes.  The converse fails at
the input-encoding level (see `c1_counterexample`): `computeHash`
concatenates role and content without a separator, so distinct prefix
sequences can collide even before any SHA-256 collision is involved. -/
theorem c1_amended (l1 l2 : List SimpleMessage)
    (h : l1.map roleContent = l2.map roleContent) :
    computeHistoryHash l1 = computeHistoryHash l2 :=
  computeHistoryHash_congr l1 l2 h

theorem c1_amended_witness :
    ([({ role := "user", content := "Hi", model := "m1" } : SimpleMessage)].map roleContent =
      [({ role := "user", content := "Hi", model := "m2" } : SimpleMessage)].map roleContent) ∧
    computeHistoryHash [{ role := "user", content := "Hi", model := "m1" }] =
      computeHistoryHash [{ role := "user", content := "Hi", model := "m2" }] :=
  ⟨by decide, c1_amended _ _ (by decide)⟩

/-! ## Claim C10 -/

/-- C10: `FindMessageByHistory` depends on the supplied history only
through the element-wise (role, content) pairs (and the request type):
the model, token-count, duration, host and metadata fields of the
history messages never influence the lookup, so a continuation sent with
a different model name still reuses the prefix persisted under the
original model. -/
theorem c10_find_ignores_non_content_fields (s : StorageState) (rt : String)
    (h1 h2 : List SimpleMessage)
    (h : h1.map roleContent = h2.map roleContent) :
    findMessageByHistory s h1 rt = findMessageByHistory s h2 rt := by
  have hlen : h1.length = h2.length := by
    have := congrArg List.length h
    simpa using this
  have hhash : computeHistoryHash h1 = computeHistoryHash h2 :=
    computeHistoryHash_congr h1 h2 h
  unfold findMessageByHistory
  rw [hhash]
  cases h1 with
  | nil =>
    cases h2 with
    | nil => rfl
    | cons b bs => simp at hlen
  | cons a as =>
    cases h2 with
    | nil => simp at hlen
    | cons b bs => rfl

theorem c10_witness :
    (([({ role := "user", content := "What is the weather?", model := "llama3" } : SimpleMessage)].map roleContent) =
      ([({ role := "user", content := "What is the weather?", model := "gpt-4o" } : SimpleMessage)].map roleContent)) ∧
    findMessageByHistory emptyStorage
        [{ role := "user", content := "What is the weather?", model := "llama3" }] "chat" =
      findMessageByHistory emptyStorage
        [{ role := "user", content := "What is the weather?", model := "gpt-4o" }] "chat" :=
  ⟨by decide, c10_find_ignores_non_content_fields emptyStorage "chat" _ _ (by decide)⟩

/-! ## Claim C5 -/

/-- C5: for every request body that parses as a JSON object, if its
`stream` field is the boolean `true` the upstream-bound body is the
re-serialization of the input object merged with
`stream_options.include_usage = true` — every key other than
`stream_options` (known or unknown) is preserved at the JSON-value
level, `stream_options` keeps its other sub-keys and gains
`include_usage = true` — and the `Content-Length` header is set to the
new body's length; if `stream` is `false` or absent (or not a boolean),
the body bytes are forwarded unchanged and the header is untouched. -/
theorem c5_stream_options_injection (orig : List Char) (fields : List (String × Json))
    (hparse : parseJson orig = some (.obj fields)) :
    (streamFlag fields = true →
      (requestInterceptorBody orig).body = serializeJson (.obj (mutateChatRequestMap fields)) ∧
      (requestInterceptorBody orig).contentLengthSet =
        some (serializeJson (.obj (mutateChatRequestMap fields))).length ∧
      (∀ k, k ≠ "stream_options" →
        lookupField (mutateChatRequestMap fields) k = lookupField fields k) ∧
      lookupField (mutateChatRequestMap fields) "stream_options" =
        some (.obj (setField (streamOptionsOf fields) "include_usage" (.bool true))) ∧
      lookupField (setField (streamOptionsOf fields) "include_usage" (.bool true)) "include_usage" =
        some (.bool true) ∧
      (∀ k', k' ≠ "include_usage" →
        lookupField (setField (streamOptionsOf fields) "include_usage" (.bool true)) k' =
          lookupField (streamOptionsOf fields) k')) ∧
    (streamFlag fields = false →
      (requestInterceptorBody orig).body = orig ∧
      (requestInterceptorBody orig).contentLengthSet = none) := by
  constructor
  · intro hstream
    have hbody : requestInterceptorBody orig =
        { body := serializeJson (.obj (mutateChatRequestMap fields)),
          contentLengthSet := some (serializeJson (.obj (mutateChatRequestMap fields))).length } := by
      unfold requestInterceptorBody
      rw [hparse]
      simp [hstream, mutateChatRequestMap]
    refine ⟨by rw [hbody], by rw [hbody], ?_, ?_, ?_, ?_⟩
    · intro k hk
      exact lookupField_setField_ne fields "stream_options" _ k hk
    · exact lookupField_setField_self fields "stream_options" _
    · exact lookupField_setField_self (streamOptionsOf fields) "include_usage" _
    · intro k' hk'
      exact lookupField_setField_ne (streamOptionsOf fields) "include_usage" _ k' hk'
  · intro hstream
    have hbody : requestInterceptorBody orig = { body := orig, contentLengthSet := none } := by
      unfold requestInterceptorBody
      rw [hparse]
      simp [hstream]
    rw [hbody]
    exact ⟨rfl, rfl⟩

/-- C5 witness: the literal scenario-2 request body. -/
theorem c5_witness :
    parseJson "\x7b\"model\":\"gpt-3.5-turbo\",\"messages\":[\x7b\"role\":\"user\",\"content\":\"Hi\"\x7d],\"stream\":true\x7d".data =
      some (.obj [("model", .str "gpt-3.5-turbo"),
        ("messages", .arr [.obj [("role", .str "user"), ("content", .str "Hi")]]),
        ("stream", .bool true)]) ∧
    (streamFlag [("model", .str "gpt-3.5-turbo"),
        ("messages", .arr [.obj [("role", .str "user"), ("content", .str "Hi")]]),
        ("stream", .bool true)] = true →
      (requestInterceptorBody "\x7b\"model\":\"gpt-3.5-turbo\",\"messages\":[\x7b\"role\":\"user\",\"content\":\"Hi\"\x7d],\"stream\":true\x7d".data).body =
        serializeJson (.obj (mutateChatRequestMap [("model", .str "gpt-3.5-turbo"),
          ("messages", .arr [.obj [("role", .str "user"), ("content", .str "Hi")]]),
          ("stream", .bool true)])) ∧
      (requestInterceptorBody "\x7b\"model\":\"gpt-3.5-turbo\",\"messages\":[\x7b\"role\":\"user\",\"content\":\"Hi\"\x7d],\"stream\":true\x7d".data).contentLengthSet =
        some (serializeJson (.obj (mutateChatRequestMap [("model", .str "gpt-3.5-turbo"),
          ("messages", .arr [.obj [("role", .str "user"), ("content", .str "Hi")]]),
          ("stream", .bool true)]))).length ∧
      (∀ k, k ≠ "stream_options" →
        lookupField (mutateChatRequestMap [("model", .str "gpt-3.5-turbo"),
          ("messages", .arr [.obj [("role", .str "user"), ("content", .str "Hi")]]),
          ("stream", .bool true)]) k =
          lookupField [("model", .str "gpt-3.5-turbo"),
            ("messages", .arr [.obj [("role", .str "user"), ("content", .str "Hi")]]),
            ("stream", .bool true)] k) ∧
      lookupField (mutateChatRequestMap [("model", .str "gpt-3.5-turbo"),
          ("messages", .arr [.obj [("role", .str "user"), ("content", .str "Hi")]]),
          ("stream", .bool true)]) "stream_options" =
        some (.obj (setField (streamOptionsOf [("model", .str "gpt-3.5-turbo"),
          ("messages", .arr [.obj [("role", .str "user"), ("content", .str "Hi")]]),
          ("stream", .bool true)]) "include_usage" (.bool true))) ∧
      lookupField (setField (streamOptionsOf [("model", .str "gpt-3.5-turbo"),
          ("messages", .arr [.obj [("role", .str "user"), ("content", .str "Hi")]]),
          ("stream", .bool true)]) "include_usage" (.bool true)) "include_usage" = some (.bool true) ∧
      (∀ k', k' ≠ "include_usage" →
        lookupField (setField (streamOptionsOf [("model", .str "gpt-3.5-turbo"),
          ("messages", .arr [.obj [("role", .str "user"), ("content", .str "Hi")]]),
          ("stream", .bool true)]) "include_usage" (.bool true)) k' =
          lookupField (streamOptionsOf [("model", .str "gpt-3.5-turbo"),
            ("messages", .arr [.obj [("role", .str "user"), ("content", .str "Hi")]]),
            ("stream", .bool true)]) k')) :=
  ⟨by rfl,
   (c5_stream_options_injection _ _ (by rfl)).1⟩

/-! ## Helper lemmas: list surgery at a known position -/

theorem getD_append_length {α : Type} (l1 : List α) (a : α) (l2 : List α) (d : α) :
    (l1 ++ a :: l2).getD l1.length d = a := by
  induction l1 with
  | nil => rfl
  | cons x xs ih => simpa using ih

theorem set_append_length {α : Type} (l1 : List α) (a : α) (l2 : List α) (v : α) :
    (l1 ++ a :: l2).set l1.length v = l1 ++ v :: l2 := by
  induction l1 with
  | nil => rfl
  | cons x xs ih => simp [ih]

/-! ## Helper lemmas: tool-call accumulation -/

theorem updateToolCall_empty (tc : ChatToolCall) : updateToolCall emptyToolCall tc = tc := by
  obtain ⟨i, t, n, a⟩ := tc
  have happ : ∀ s : String, "" ++ s = s := fun ⟨l⟩ => rfl
  by_cases hi : i = "" <;> by_cases ht : t = "" <;> by_cases hn : n = "" <;>
    simp [updateToolCall, emptyToolCall, hi, ht, hn, happ]

/-- On delta sequences whose `index` field equals the array position,
the positional loop of the Go code agrees with the spec's index-directed
accumulation, starting from any non-empty accumulated list. -/
theorem applyFrom_eq_spec (deltas : List (Nat × ChatToolCall)) :
    ∀ (k : Nat) (ex : List ChatToolCall),
      (∀ i (h : i < deltas.length), (deltas.get ⟨i, h⟩).1 = k + i) →
      applyDeltaToolCallsFrom ex k (deltas.map (·.2)) = applyDeltaToolCallsSpec ex deltas := by
  induction deltas with
  | nil => intro k ex _; rfl
  | cons d rest ih =>
    intro k ex hpos
    obtain ⟨idx, tc⟩ := d
    have hidx : idx = k := by simpa using hpos 0 (by simp)
    subst hidx
    have hshift : ∀ i (h : i < rest.length), (rest.get ⟨i, h⟩).1 = (idx + 1) + i := by
      intro i h
      have h2 := hpos (i + 1) (by simpa using Nat.succ_lt_succ h)
      simp only [List.get_cons_succ] at h2
      omega
    simp only [List.map_cons, applyDeltaToolCallsFrom, applyDeltaToolCallsSpec, List.foldl_cons]
    by_cases hlen : ex.length ≤ idx
    · rw [if_pos hlen, if_pos hlen]
      exact ih (idx + 1) (ex ++ [tc]) hshift
    · rw [if_neg hlen, if_neg hlen]
      exact ih (idx + 1) _ hshift

/-- The `nil`-initialisation path: starting from a zero-filled list of
the delta's length behaves like the spec's accumulation starting from
the already-accumulated prefix `pre`. -/
theorem applyFrom_replicate_eq_spec (deltas : List (Nat × ChatToolCall)) :
    ∀ (pre : List ChatToolCall),
      (∀ i (h : i < deltas.length), (deltas.get ⟨i, h⟩).1 = pre.length + i) →
      applyDeltaToolCallsFrom (pre ++ List.replicate deltas.length emptyToolCall) pre.length
          (deltas.map (·.2)) =
        applyDeltaToolCallsSpec pre deltas := by
  induction deltas with
  | nil =>
    intro pre _
    simp [applyDeltaToolCallsFrom, applyDeltaToolCallsSpec]
  | cons d rest ih =>
    intro pre hpos
    obtain ⟨idx, tc⟩ := d
    have hidx : idx = pre.length := by simpa using hpos 0 (by simp)
    subst hidx
    have hshift : ∀ i (h : i < rest.length), (rest.get ⟨i, h⟩).1 = (pre ++ [tc]).length + i := by
      intro i h
      have h2 := hpos (i + 1) (by simpa using Nat.succ_lt_succ h)
      simp only [List.get_cons_succ] at h2
      simp only [List.length_append, List.length_cons, List.length_nil]
      omega
    simp only [List.replicate, List.map_cons, applyDeltaToolCallsFrom, applyDeltaToolCallsSpec,
      List.foldl_cons]
    have hnotle : ¬ ((pre ++ emptyToolCall :: List.replicate rest.length emptyToolCall).length ≤ pre.length) := by
      simp
    rw [if_neg hnotle, if_pos (Nat.le_refl pre.length),
      getD_append_length, set_append_length, updateToolCall_empty]
    have hassoc : pre ++ tc :: List.replicate rest.length emptyToolCall =
        (pre ++ [tc]) ++ List.replicate rest.length emptyToolCall := by
      simp
    rw [hassoc]
    have hlen1 : pre.length + 1 = (pre ++ [tc]).length := by simp
    rw [hlen1]
    exact ih (pre ++ [tc]) hshift

/-! ## Claim C4 -/

/-- C4, counterexample.  The claim states that streamed tool calls are
accumulated at the position given by each delta entry's `index` field.
Go's `chatToolCall` struct does not decode an `index` field at all; the
loop `for i, tc := range choice.Delta.ToolCalls` uses the *array
position* `i` instead.  With two tool calls already accumulated, a delta
carrying the single entry `{"index": 1, "function": {"arguments": "z"}}`
must, per the claim, extend the *second* tool call; the code extends the
*first*. -/
theorem c4_counterexample :
    applyDeltaToolCalls
        [{ id := "call_a", type := "function", function := { name := "f", arguments := "x" } },
         { id := "call_b", type := "function", function := { name := "g", arguments := "y" } }]
        ([(1, { id := "", type := "", function := { name := "", arguments := "z" } })].map (·.2)) ≠
      applyDeltaToolCallsSpec
        [{ id := "call_a", type := "function", function := { name := "f", arguments := "x" } },
         { id := "call_b", type := "function", function := { name := "g", arguments := "y" } }]
        [(1, { id := "", type := "", function := { name := "", arguments := "z" } })] := by
  decide

/-- C4, amended: the accumulation is positional — entry `i` of a delta's
`tool_calls` array updates (or creates) entry `i` of the choice's
accumulated list, with non-empty `id`, `type` and `function.name`
overwritten in place and `function.arguments` concatenated.  Whenever
every streamed entry's `index` field coincides with its array position
(as in scenario-3-style streams, where each delta repeats the full
tool-call prefix), this agrees with the spec's index-directed rule, so
such streams still reassemble the full id, type, name and arguments. -/
theorem c4_amended (existing : List ChatToolCall) (deltas : List (Nat × ChatToolCall))
    (hpos : ∀ i (h : i < deltas.length), (deltas.get ⟨i, h⟩).1 = i) :
    applyDeltaToolCalls existing (deltas.map (·.2)) = applyDeltaToolCallsSpec existing deltas := by
  unfold applyDeltaToolCalls
  by_cases hex : existing.isEmpty
  · have hnil : existing = [] := by
      cases existing with
      | nil => rfl
      | cons x xs => simp at hex
    subst hnil
    simp only [List.isEmpty_nil, if_true, List.length_map, List.nil_append]
    have := applyFrom_replicate_eq_spec deltas [] (by simpa using hpos)
    simpa using this
  · simp only [hex, Bool.false_eq_true, if_false]
    exact applyFrom_eq_spec deltas 0 existing (by simpa using hpos)

/-- C4 witness: one scenario-3 frame — a single delta entry whose
`index` field (0) equals its array position (0) — applied to an already
accumulated tool call, concatenating onto the arguments. -/
theorem c4_witness :
    (∀ i (h : i < ([(0, { id := "", type := "", function := { name := "", arguments := "\x7b\"location\"" } })] :
        List (Nat × ChatToolCall)).length),
      (([(0, { id := "", type := "", function := { name := "", arguments := "\x7b\"location\"" } })] :
        List (Nat × ChatToolCall)).get ⟨i, h⟩).1 = i) ∧
    applyDeltaToolCalls
        [{ id := "call_abc", type := "function", function := { name := "get_weather", arguments := "" } }]
        (([(0, { id := "", type := "", function := { name := "", arguments := "\x7b\"location\"" } })] :
          List (Nat × ChatToolCall)).map (·.2)) =
      applyDeltaToolCallsSpec
        [{ id := "call_abc", type := "function", function := { name := "get_weather", arguments := "" } }]
        [(0, { id := "", type := "", function := { name := "", arguments := "\x7b\"location\"" } })] :=
  ⟨by decide, c4_amended _ _ (by decide)⟩

/-! ## Helper lemmas: SSE line splitting -/

theorem processLine_nil (st : ChatResponse) : processLine st [] = st := rfl

theorem splitOnNl_ne_nil (l : List Char) : splitOnNl l ≠ [] := by
  cases l with
  | nil => simp [splitOnNl]
  | cons c rest =>
    simp only [splitOnNl]
    by_cases hc : c == '\n'
    · simp [hc]
    · simp only [hc, Bool.false_eq_true, if_false]
      cases hsplit : splitOnNl rest with
      | nil => simp
      | cons x xs => simp

theorem splitOnNl_cons_nl (rest : List Char) : splitOnNl ('\n' :: rest) = [] :: splitOnNl rest := by
  simp [splitOnNl]

theorem splitOnNl_cons_ne (c : Char) (rest : List Char) (h : ¬ c = '\n') :
    splitOnNl (c :: rest) = (c :: (splitOnNl rest).headI) :: (splitOnNl rest).tail := by
  simp only [splitOnNl]
  rw [if_neg (by simpa using h)]
  obtain ⟨x, xs, heq⟩ := List.exists_cons_of_ne_nil (splitOnNl_ne_nil rest)
  rw [heq]
  rfl

theorem headI_cons_tail {α : Type} [Inhabited α] (l : List α) (h : l ≠ []) :
    l.headI :: l.tail = l := by
  cases l with
  | nil => exact absurd rfl h
  | cons x xs => rfl

/-- Splitting at a line boundary: processing `a ++ b` in one chunk
equals processing `a` then `b`, provided `a` ends with a newline.  The
`pre` parameter threads a partial first line, generalising the
induction. -/
theorem processChunk_split_pre (a : List Char) :
    ∀ (pre b : List Char) (st : ChatResponse), a.getLast? = some '\n' →
      (((pre ++ (splitOnNl (a ++ b)).headI) :: (splitOnNl (a ++ b)).tail).foldl processLine st) =
        (splitOnNl b).foldl processLine
          (((pre ++ (splitOnNl a).headI) :: (splitOnNl a).tail).foldl processLine st) := by
  induction a with
  | nil => intro pre b st h; simp at h
  | cons c a' ih =>
    intro pre b st hend
    by_cases hc : c = '\n'
    · subst hc
      cases a' with
      | nil =>
        simp [splitOnNl_cons_nl, splitOnNl, processLine_nil]
      | cons d a'' =>
        have hend' : (d :: a'').getLast? = some '\n' := by
          rw [← List.getLast?_cons_cons]; exact hend
        have key := ih [] b (processLine st pre) hend'
        simp only [List.nil_append] at key
        rw [headI_cons_tail _ (splitOnNl_ne_nil ((d :: a'') ++ b))] at key
        rw [headI_cons_tail _ (splitOnNl_ne_nil (d :: a''))] at key
        rw [List.cons_append, splitOnNl_cons_nl ((d :: a'') ++ b), splitOnNl_cons_nl (d :: a'')]
        show List.foldl processLine st
            ((pre ++ []) :: splitOnNl ((d :: a'') ++ b)) =
          List.foldl processLine
            (List.foldl processLine st ((pre ++ []) :: splitOnNl (d :: a''))) (splitOnNl b)
        rw [List.append_nil, List.foldl_cons, List.foldl_cons]
        exact key
    · have ha' : a' ≠ [] := by
        intro hnil
        subst hnil
        simp only [List.getLast?_singleton, Option.some.injEq] at hend
        exact hc hend
      have hend' : a'.getLast? = some '\n' := by
        obtain ⟨d, a'', hda⟩ := List.exists_cons_of_ne_nil ha'
        subst hda
        rw [← List.getLast?_cons_cons]
        exact hend
      have key := ih (pre ++ [c]) b st hend'
      rw [List.cons_append, splitOnNl_cons_ne c (a' ++ b) hc, splitOnNl_cons_ne c a' hc]
      show List.foldl processLine st
          ((pre ++ c :: (splitOnNl (a' ++ b)).headI) :: (splitOnNl (a' ++ b)).tail) =
        List.foldl processLine
          (List.foldl processLine st ((pre ++ c :: (splitOnNl a').headI) :: (splitOnNl a').tail))
          (splitOnNl b)
      have hpc1 : pre ++ c :: (splitOnNl (a' ++ b)).headI =
          (pre ++ [c]) ++ (splitOnNl (a' ++ b)).headI := by simp
      have hpc2 : pre ++ c :: (splitOnNl a').headI = (pre ++ [c]) ++ (splitOnNl a').headI := by simp
      rw [hpc1, hpc2]
      exact key

/-- Chunk-boundary independence at line granularity: a sequence of
newline-terminated chunks accumulates exactly like the whole
concatenated stream fed as one chunk. -/
theorem processChunks_eq_flatten (chunks : List (List Char))
    (h : ∀ c ∈ chunks, c.getLast? = some '\n') :
    ∀ st, processChunks st chunks = processChunk st chunks.flatten := by
  induction chunks with
  | nil =>
    intro st
    simp [processChunks, processChunk, splitOnNl, processLine_nil]
  | cons c cs ih =>
    intro st
    have hc : c.getLast? = some '\n' := h c (List.mem_cons_self c cs)
    have hcs : ∀ x ∈ cs, x.getLast? = some '\n' := fun x hx => h x (List.mem_cons_of_mem c hx)
    simp only [processChunks, List.foldl_cons, List.flatten_cons]
    have key := processChunk_split_pre c [] cs.flatten st hc
    simp only [List.nil_append] at key
    rw [headI_cons_tail _ (splitOnNl_ne_nil (c ++ cs.flatten))] at key
    rw [headI_cons_tail _ (splitOnNl_ne_nil c)] at key
    have ih' := ih hcs (processChunk st c)
    simp only [processChunks] at ih'
    rw [ih']
    unfold processChunk
    exact key.symm

/-! ## Claim C6 -/

/-- C6, counterexample.  The claim asserts chunk-boundary independence
for arbitrary splits, including splits inside a `data: {…}` line.  The
interceptor keeps no cross-chunk buffer: each chunk is split on
newlines and any fragment of a `data: ` line is either ignored (no
`data: ` prefix) or fails to parse and is dropped.  The same stream,
delivered whole or split after the 6 bytes `data: `, accumulates
different responses (content `"hi"` versus nothing). -/
theorem c6_counterexample :
    (["data: ".data,
        "\x7b\"id\":\"x\",\"choices\":[\x7b\"index\":0,\"delta\":\x7b\"content\":\"hi\"\x7d\x7d]\x7d\n".data] :
      List (List Char)).flatten =
      (["data: \x7b\"id\":\"x\",\"choices\":[\x7b\"index\":0,\"delta\":\x7b\"content\":\"hi\"\x7d\x7d]\x7d\n".data] :
        List (List Char)).flatten ∧
    processChunks emptyChatResponse
        ["data: \x7b\"id\":\"x\",\"choices\":[\x7b\"index\":0,\"delta\":\x7b\"content\":\"hi\"\x7d\x7d]\x7d\n".data] ≠
      processChunks emptyChatResponse
        ["data: ".data,
         "\x7b\"id\":\"x\",\"choices\":[\x7b\"index\":0,\"delta\":\x7b\"content\":\"hi\"\x7d\x7d]\x7d\n".data] := by
  exact ⟨by decide, by decide⟩

/-- C6, amended: chunk-boundary independence holds for splits at line
boundaries — any two chunkings of the same SSE byte stream in which
every chunk ends with a newline (so no `data: {…}` line is cut) yield
the same accumulated response state.  When a split falls inside a
`data:` line the fragments are dropped (see `c6_counterexample`),
because `ChunkInterceptor` holds no cross-chunk buffer. -/
theorem c6_amended (chunks1 chunks2 : List (List Char)) (st : ChatResponse)
    (h1 : ∀ c ∈ chunks1, c.getLast? = some '\n')
    (h2 : ∀ c ∈ chunks2, c.getLast? = some '\n')
    (hsame : chunks1.flatten = chunks2.flatten) :
    processChunks st chunks1 = processChunks st chunks2 := by
  rw [processChunks_eq_flatten chunks1 h1 st, processChunks_eq_flatten chunks2 h2 st, hsame]

/-- C6 witness: a two-frame stream delivered as one chunk versus one
chunk per frame. -/
theorem c6_witness :
    (∀ c ∈ (["data: \x7b\"id\":\"x\",\"choices\":[\x7b\"index\":0,\"delta\":\x7b\"content\":\"hi\"\x7d\x7d]\x7d\ndata: [DONE]\n".data] :
        List (List Char)), c.getLast? = some '\n') ∧
    (∀ c ∈ (["data: \x7b\"id\":\"x\",\"choices\":[\x7b\"index\":0,\"delta\":\x7b\"content\":\"hi\"\x7d\x7d]\x7d\n".data,
        "data: [DONE]\n".data] : List (List Char)), c.getLast? = some '\n') ∧
    (["data: \x7b\"id\":\"x\",\"choices\":[\x7b\"index\":0,\"delta\":\x7b\"content\":\"hi\"\x7d\x7d]\x7d\ndata: [DONE]\n".data] :
        List (List Char)).flatten =
      (["data: \x7b\"id\":\"x\",\"choices\":[\x7b\"index\":0,\"delta\":\x7b\"content\":\"hi\"\x7d\x7d]\x7d\n".data,
        "data: [DONE]\n".data] : List (List Char)).flatten ∧
    processChunks emptyChatResponse
        ["data: \x7b\"id\":\"x\",\"choices\":[\x7b\"index\":0,\"delta\":\x7b\"content\":\"hi\"\x7d\x7d]\x7d\ndata: [DONE]\n".data] =
      processChunks emptyChatResponse
        ["data: \x7b\"id\":\"x\",\"choices\":[\x7b\"index\":0,\"delta\":\x7b\"content\":\"hi\"\x7d\x7d]\x7d\n".data,
         "data: [DONE]\n".data] :=
  ⟨by decide, by decide, by decide,
   c6_amended _ _ emptyChatResponse (by decide) (by decide) (by decide)⟩

/-! ## Helper lemmas: proxy hook dispatch -/

theorem countP_chunkHooks_terminal (l : List (List Nat)) :
    (l.map (fun _ => HookEvent.chunkHook)).countP isTerminalHook = 0 := by
  rw [List.countP_eq_zero]
  intro a ha
  obtain ⟨x, _, hx⟩ := List.mem_map.mp ha
  rw [← hx]
  simp [isTerminalHook]

theorem countP_chunkHooks_content (l : List (List Nat)) :
    (l.map (fun _ => HookEvent.chunkHook)).countP (fun e => e == HookEvent.contentHook) = 0 := by
  rw [List.countP_eq_zero]
  intro a ha
  obtain ⟨x, _, hx⟩ := List.mem_map.mp ha
  rw [← hx]
  simp

theorem countP_replicate_chunkHook (n : Nat) :
    (List.replicate n HookEvent.chunkHook).countP (fun e => e == HookEvent.chunkHook) = n := by
  induction n with
  | zero => rfl
  | succ m ih => simp [List.replicate, List.countP_cons, ih]

theorem countP_chunkHooks_chunk (l : List (List Nat)) :
    (l.map (fun _ => HookEvent.chunkHook)).countP (fun e => e == HookEvent.chunkHook) = l.length := by
  induction l with
  | nil => rfl
  | cons x xs ih => simpa [List.countP_cons] using ih

/-- The hook events of `serveHTTP` on an error-free buffered response,
written out explicitly. -/
theorem serveHTTP_buffered_eq (r : UpstreamResponse) (hch : isChunkedResponse r = false)
    (hr : r.readError = none) (hw : r.writeError = none) :
    serveHTTP true (.success r) =
      { events := [HookEvent.requestHook, HookEvent.responseHook, HookEvent.contentHook,
          if 400 ≤ r.status then HookEvent.errorHook (.upstreamStatus r.status)
          else HookEvent.completeHook],
        clientStatus := r.status } := by
  simp only [serveHTTP, serveHTTP2, handleRegularResponse, hch, hr, hw]
  by_cases hs : 400 ≤ r.status
  · simp [hs, ge_iff_le]
  · simp [hs, ge_iff_le]

/-- The hook events of `serveHTTP` on an error-free chunked response,
written out explicitly. -/
theorem serveHTTP_chunked_eq (r : UpstreamResponse) (hch : isChunkedResponse r = true)
    (hr : r.readError = none) (hw : r.writeError = none) :
    serveHTTP true (.success r) =
      { events := [HookEvent.requestHook, HookEvent.responseHook] ++
          r.chunks.map (fun _ => HookEvent.chunkHook) ++
          [if 400 ≤ r.status then HookEvent.errorHook (.upstreamStatus r.status)
           else HookEvent.completeHook],
        clientStatus := r.status } := by
  simp only [serveHTTP, serveHTTP2, handleChunkedResponse, hch, hr, hw]
  by_cases hs : 400 ≤ r.status
  · simp [hs, ge_iff_le]
  · simp [hs, ge_iff_le]

/-- The body-phase pair's error component is `bodyPhaseError`. -/
theorem bodyPair_snd (r : UpstreamResponse) :
    (if isChunkedResponse r then handleChunkedResponse true r
     else handleRegularResponse true r).2 = bodyPhaseError r := by
  unfold handleChunkedResponse handleRegularResponse bodyPhaseError
  by_cases hch : isChunkedResponse r <;> cases hre : r.readError <;> simp [hch, hre]

/-! ## Claim C8 -/

/-- C8, counterexample.  The claim requires `ChunkInterceptor` to be
invoked at least once on the streaming path; an upstream that declares
chunked transfer encoding but delivers an empty body (zero chunks read
by the copy loop) takes the streaming path with zero `ChunkInterceptor`
invocations. -/
theorem c8_counterexample :
    isChunkedResponse { status := 200, transferEncoding := ["chunked"], chunks := [] } = true ∧
    ((serveHTTP true (.success { status := 200, transferEncoding := ["chunked"], chunks := [] })).events.countP
        (fun e => e == HookEvent.chunkHook)) = 0 := by
  decide

/-- C8, amended: the streaming path is taken iff the transfer-encoding
list's first element is `"chunked"` (unconditionally); and in the
absence of body read/write errors, the buffered path invokes
`ContentInterceptor` exactly once and `ChunkInterceptor` never, while
the streaming path invokes `ChunkInterceptor` exactly once per chunk
read from the upstream (hence at least once whenever at least one chunk
arrives) and `ContentInterceptor` never. -/
theorem c8_amended (r : UpstreamResponse)
    (hr : r.readError = none) (hw : r.writeError = none) :
    (isChunkedResponse r = true ↔ r.transferEncoding.head? = some "chunked") ∧
    (isChunkedResponse r = false →
      (serveHTTP true (.success r)).events.countP (fun e => e == HookEvent.contentHook) = 1 ∧
      (serveHTTP true (.success r)).events.countP (fun e => e == HookEvent.chunkHook) = 0) ∧
    (isChunkedResponse r = true →
      (serveHTTP true (.success r)).events.countP (fun e => e == HookEvent.chunkHook) = r.chunks.length ∧
      (serveHTTP true (.success r)).events.countP (fun e => e == HookEvent.contentHook) = 0) := by
  refine ⟨?_, ?_, ?_⟩
  · unfold isChunkedResponse
    cases r.transferEncoding with
    | nil => simp
    | cons t ts =>
      simp only [List.head?_cons, Option.some.injEq, beq_iff_eq]
  · intro hstream
    rw [serveHTTP_buffered_eq r hstream hr hw]
    by_cases hs : 400 ≤ r.status <;>
      simp [hs, List.countP_cons]
  · intro hstream
    rw [serveHTTP_chunked_eq r hstream hr hw]
    by_cases hs : 400 ≤ r.status <;>
      simp [hs, List.countP_append, List.countP_cons, countP_chunkHooks_chunk,
        countP_chunkHooks_content, countP_replicate_chunkHook]

/-- C8 witness: a two-chunk error-free stream. -/
theorem c8_witness :
    (({ status := 200, transferEncoding := ["chunked"], chunks := [[99], [100]] } : UpstreamResponse).readError = none) ∧
    (isChunkedResponse { status := 200, transferEncoding := ["chunked"], chunks := [[99], [100]] } = true →
      (serveHTTP true (.success { status := 200, transferEncoding := ["chunked"], chunks := [[99], [100]] })).events.countP
          (fun e => e == HookEvent.chunkHook) =
        ({ status := 200, transferEncoding := ["chunked"], chunks := [[99], [100]] } : UpstreamResponse).chunks.length ∧
      (serveHTTP true (.success { status := 200, transferEncoding := ["chunked"], chunks := [[99], [100]] })).events.countP
          (fun e => e == HookEvent.contentHook) = 0) :=
  ⟨rfl, (c8_amended { status := 200, transferEncoding := ["chunked"], chunks := [[99], [100]] } rfl rfl).2.2⟩

/-! ## Claim C9 -/

/-- The body-phase events never include a terminal hook. -/
theorem countP_bodyEvents_terminal (r : UpstreamResponse) :
    ((if isChunkedResponse r then handleChunkedResponse true r
      else handleRegularResponse true r).1).countP isTerminalHook = 0 := by
  by_cases hch : isChunkedResponse r
  · simp only [hch, if_true, handleChunkedResponse]
    exact countP_chunkHooks_terminal r.chunks
  · simp only [hch, Bool.false_eq_true, if_false, handleRegularResponse]
    cases hre : r.readError with
    | some e => rfl
    | none => cases hwe : r.writeError <;> simp [isTerminalHook, List.countP_cons]

/-- The events and status of `serveHTTP` on any successful dispatch. -/
theorem serveHTTP_success_eq (r : UpstreamResponse) :
    serveHTTP true (.success r) =
      { events := [HookEvent.requestHook, HookEvent.responseHook] ++
          (if isChunkedResponse r then handleChunkedResponse true r
           else handleRegularResponse true r).1 ++
          [match bodyPhaseError r with
           | some e => HookEvent.errorHook (.body e)
           | none =>
             if 400 ≤ r.status then HookEvent.errorHook (.upstreamStatus r.status)
             else HookEvent.completeHook],
        clientStatus := r.status } := by
  simp only [serveHTTP, serveHTTP2]
  rw [← bodyPair_snd r]
  cases hb : (if isChunkedResponse r then handleChunkedResponse true r
      else handleRegularResponse true r).2 with
  | some e => simp [hb]
  | none =>
    by_cases hs : 400 ≤ r.status
    · simp [hb, hs, ge_iff_le]
    · simp [hb, hs, ge_iff_le]

/-- C9, counterexample.  The claim's parenthetical asserts that whenever
the upstream status is `≥ 400` the synthetic error "upstream returned
status code N" is the error `OnError` receives.  When a body read error
occurs on a `500` response, `ServeHTTP2` returns the read error before
the synthetic-error step is reached, so `OnError` receives the read
error instead of the synthetic one. -/
theorem c9_counterexample :
    400 ≤ (UpstreamResponse.mk 500 ["chunked"] [[104]] (some "read: connection reset") none).status ∧
    (serveHTTP true (.success
        (UpstreamResponse.mk 500 ["chunked"] [[104]] (some "read: connection reset") none))).events.getLast? =
      some (HookEvent.errorHook (.body "read: connection reset")) ∧
    PError.message (.body "read: connection reset") ≠
      PError.message (.upstreamStatus 500) := by
  refine ⟨by decide, by decide, by decide⟩

/-- C9, amended: with a registered interceptor, exactly one terminal
hook fires, as the last hook of the request; `OnError` fires precisely
when the dispatch fails at transport level (the client then being
answered 502), a body read/write error occurs mid-transfer, or the
upstream status is `≥ 400`; the error passed is the transport error,
else the body error, else the synthetic "upstream returned status code
N" — so the synthetic error is the one passed only when the body phase
itself succeeded. -/
theorem c9_amended (d : Dispatch) :
    (serveHTTP true d).events.countP isTerminalHook = 1 ∧
    (serveHTTP true d).events.getLast? =
      some (match expectedResult d with
            | some e => HookEvent.errorHook e
            | none => HookEvent.completeHook) ∧
    ((expectedResult d).isSome = true ↔ onErrorCondition d) ∧
    (∀ m, d = .failure m → (serveHTTP true d).clientStatus = 502 ∧
      expectedResult d = some (.transport m)) ∧
    (∀ r, d = .success r → bodyPhaseError r = none → 400 ≤ r.status →
      expectedResult d = some (.upstreamStatus r.status) ∧
      PError.message (.upstreamStatus r.status) =
        "upstream returned status code " ++ toString r.status) := by
  cases d with
  | failure m =>
    refine ⟨?_, ?_, ?_, ?_, ?_⟩
    · simp [serveHTTP, serveHTTP2, isTerminalHook, List.countP_cons]
    · simp [serveHTTP, serveHTTP2, expectedResult]
    · simp [expectedResult, onErrorCondition]
    · intro m' hm
      cases hm
      exact ⟨by simp [serveHTTP, serveHTTP2], rfl⟩
    · intro r hr
      simp at hr
  | success r =>
    refine ⟨?_, ?_, ?_, ?_, ?_⟩
    · rw [serveHTTP_success_eq r]
      simp only [List.countP_append, countP_bodyEvents_terminal]
      cases hb : bodyPhaseError r with
      | some e => simp [isTerminalHook, List.countP_cons]
      | none =>
        by_cases hs : 400 ≤ r.status <;> simp [hs, isTerminalHook, List.countP_cons]
    · rw [serveHTTP_success_eq r]
      rw [List.getLast?_concat]
      cases hb : bodyPhaseError r with
      | some e => simp [expectedResult, hb]
      | none =>
        by_cases hs : 400 ≤ r.status <;> simp [expectedResult, hb, hs]
    · simp only [expectedResult, onErrorCondition]
      cases hb : bodyPhaseError r with
      | some e => simp [hb]
      | none =>
        by_cases hs : 400 ≤ r.status <;> simp [hs]
    · intro m hm
      simp at hm
    · intro r' hr' hbe hs
      have hrr : r' = r := by
        injection hr' with h
        exact h.symm
      subst hrr
      constructor
      · simp only [expectedResult, hbe]
        simp [hs]
      · rfl

/-! ## Helper lemmas: lookups in the storage state -/

theorem getLast?_mem_of_eq_some {α : Type} {l : List α} {a : α} (h : l.getLast? = some a) :
    a ∈ l := by
  obtain ⟨hne, heq⟩ := List.mem_getLast?_eq_getLast (by rw [h]; rfl)
  rw [heq]
  exact List.getLast_mem hne

/-- In a list whose images under `f` are duplicate-free, `find?` keyed
on `f x` returns the member `x` itself. -/
theorem find?_beq_of_mem_nodup {α : Type} (f : α → Nat) :
    ∀ (l : List α), (l.map f).Nodup → ∀ x ∈ l, l.find? (fun y => f y == f x) = some x := by
  intro l
  induction l with
  | nil => intro _ x hx; simp at hx
  | cons a l' ih =>
    intro hnd x hx
    simp only [List.map_cons, List.nodup_cons] at hnd
    cases List.mem_cons.mp hx with
    | inl hxa =>
      subst hxa
      simp [List.find?]
    | inr hxl =>
      have hne : (f a == f x) = false := by
        rw [beq_eq_false_iff_ne]
        intro heq
        exact hnd.1 (heq ▸ List.mem_map_of_mem f hxl)
      rw [List.find?]
      rw [hne]
      exact ih hnd.2 x hxl

theorem find?_append_none {α : Type} (l1 l2 : List α) (p : α → Bool) (h : l1.find? p = none) :
    (l1 ++ l2).find? p = l2.find? p := by
  rw [List.find?_append, h]
  rfl

theorem find?_append_some {α : Type} (l1 l2 : List α) (p : α → Bool) (a : α)
    (h : l1.find? p = some a) : (l1 ++ l2).find? p = some a := by
  rw [List.find?_append, h]
  rfl

/-- Messages have IDs below the counter, so a fresh-ID lookup misses
them all. -/
theorem find?_messages_fresh (s : StorageState) (hWF : WellFormed s) (n : Nat)
    (hn : s.nextId ≤ n) : s.messages.find? (fun m => m.id == n) = none := by
  rw [List.find?_eq_none]
  intro m hm
  have := (hWF.1 m hm).1
  simp only [beq_iff_eq]
  omega

theorem find?_branches_fresh (s : StorageState) (hWF : WellFormed s) (n : Nat)
    (hn : s.nextId ≤ n) : s.branches.find? (fun b => b.id == n) = none := by
  rw [List.find?_eq_none]
  intro b hb
  have := (hWF.2.1 b hb).1
  simp only [beq_iff_eq]
  omega

theorem find?_conversations_fresh (s : StorageState) (hWF : WellFormed s) (n : Nat)
    (hn : s.nextId ≤ n) : s.conversations.find? (fun c => c.id == n) = none := by
  rw [List.find?_eq_none]
  intro c hc
  have := hWF.2.2.1 c hc
  simp only [beq_iff_eq]
  omega

theorem lookupMessage_of_mem (s : StorageState) (hWF : WellFormed s) (m : Message)
    (hm : m ∈ s.messages) : lookupMessage s m.id = some m := by
  unfold lookupMessage
  exact find?_beq_of_mem_nodup (fun x => x.id) s.messages hWF.2.2.2.1 m hm

theorem lookupBranch_of_mem (s : StorageState) (hWF : WellFormed s) (b : Branch)
    (hb : b ∈ s.branches) : lookupBranch s b.id = some b := by
  unfold lookupBranch
  exact find?_beq_of_mem_nodup (fun x => x.id) s.branches hWF.2.2.2.2.1 b hb

theorem lookupConversation_of_mem (s : StorageState) (hWF : WellFormed s) (c : Conversation)
    (hc : c ∈ s.conversations) : lookupConversation s c.id = some c := by
  unfold lookupConversation
  exact find?_beq_of_mem_nodup (fun x => x.id) s.conversations hWF.2.2.2.2.2 c hc

theorem conversationRequestType_congr (s s' : StorageState)
    (h : s'.conversations = s.conversations) (cid : Nat) :
    conversationRequestType s' cid = conversationRequestType s cid := by
  unfold conversationRequestType lookupConversation
  rw [h]

/-! ## Helper lemmas: well-formedness preservation -/

theorem optIdBelow_mono (o : Option Nat) (n n' : Nat) (h : optIdBelow o n = true)
    (hnn : n ≤ n') : optIdBelow o n' = true := by
  cases o with
  | none => rfl
  | some p =>
    simp only [optIdBelow, decide_eq_true_eq] at h ⊢
    omega

theorem recordChildBranch_id (pid nb : Nat) (m : Message) :
    (recordChildBranch pid nb m).id = m.id := by
  unfold recordChildBranch
  split <;> rfl

theorem recordChildBranch_parent (pid nb : Nat) (m : Message) :
    (recordChildBranch pid nb m).parentMessageId = m.parentMessageId := by
  unfold recordChildBranch
  split <;> rfl

theorem recordChildBranch_hash (pid nb : Nat) (m : Message) :
    (recordChildBranch pid nb m).cumulativeHash = m.cumulativeHash := by
  unfold recordChildBranch
  split <;> rfl

theorem recordChildBranch_conv (pid nb : Nat) (m : Message) :
    (recordChildBranch pid nb m).conversationId = m.conversationId := by
  unfold recordChildBranch
  split <;> rfl

theorem recordChildBranch_branch (pid nb : Nat) (m : Message) :
    (recordChildBranch pid nb m).branchId = m.branchId := by
  unfold recordChildBranch
  split <;> rfl

theorem recordChildBranch_simple (pid nb : Nat) (m : Message) :
    (recordChildBranch pid nb m).simple = m.simple := by
  unfold recordChildBranch
  split <;> rfl

/-- Appending one fresh message (`insertMessage`'s state change)
preserves well-formedness. -/
theorem WellFormed_insert (s : StorageState) (hWF : WellFormed s) (msg : Message)
    (hid : msg.id = s.nextId)
    (hpar : optIdBelow msg.parentMessageId s.nextId = true)
    (hbr : ∃ b ∈ s.branches, b.id = msg.branchId ∧ b.conversationId = msg.conversationId) :
    WellFormed { s with messages := s.messages ++ [msg], nextId := s.nextId + 1 } := by
  obtain ⟨hmsg, hbrs, hconv, hnd1, hnd2, hnd3⟩ := hWF
  refine ⟨?_, ?_, ?_, ?_, ?_, ?_⟩ <;> dsimp only
  · intro m hm
    rcases List.mem_append.mp hm with h | h
    · obtain ⟨h1, h2, h3⟩ := hmsg m h
      exact ⟨by omega, optIdBelow_mono _ _ _ h2 (by omega), h3⟩
    · rw [List.mem_singleton] at h
      subst h
      exact ⟨by omega, optIdBelow_mono _ _ _ hpar (by omega), hbr⟩
  · intro b hb
    obtain ⟨h1, h2⟩ := hbrs b hb
    exact ⟨by omega, h2⟩
  · intro c hc
    have := hconv c hc
    omega
  · simp only [List.map_append, List.map_cons, List.map_nil]
    apply List.Nodup.append hnd1 (by simp)
    intro a ha hb
    rw [List.mem_singleton] at hb
    obtain ⟨m, hm, hma⟩ := List.mem_map.mp ha
    have := (hmsg m hm).1
    omega
  · exact hnd2
  · exact hnd3

/-- The fork step (new branch + child-branch record on the parent)
preserves well-formedness. -/
theorem WellFormed_fork (s : StorageState) (hWF : WellFormed s) (pid : Nat) (nb : Branch)
    (hnbid : nb.id = s.nextId)
    (hnbconv : ∃ c ∈ s.conversations, c.id = nb.conversationId) :
    WellFormed { s with branches := s.branches ++ [nb],
                        messages := s.messages.map (recordChildBranch pid nb.id),
                        nextId := s.nextId + 1 } := by
  obtain ⟨hmsg, hbrs, hconv, hnd1, hnd2, hnd3⟩ := hWF
  refine ⟨?_, ?_, ?_, ?_, ?_, ?_⟩ <;> dsimp only
  · intro m' hm'
    obtain ⟨m, hm, rfl⟩ := List.mem_map.mp hm'
    obtain ⟨h1, h2, h3⟩ := hmsg m hm
    refine ⟨by rw [recordChildBranch_id]; omega,
      by rw [recordChildBranch_parent]; exact optIdBelow_mono _ _ _ h2 (by omega), ?_⟩
    obtain ⟨b, hb, hb1, hb2⟩ := h3
    exact ⟨b, List.mem_append_left _ hb,
      by rw [recordChildBranch_branch]; exact hb1,
      by rw [recordChildBranch_conv]; exact hb2⟩
  · intro b hb
    rcases List.mem_append.mp hb with h | h
    · obtain ⟨h1, h2⟩ := hbrs b h
      exact ⟨by omega, h2⟩
    · rw [List.mem_singleton] at h
      subst h
      exact ⟨by omega, hnbconv⟩
  · intro c hc
    have := hconv c hc
    omega
  · have hcongr : s.messages.map ((fun m => m.id) ∘ recordChildBranch pid nb.id) =
        s.messages.map (fun m => m.id) :=
      List.map_congr_left (fun m _ => recordChildBranch_id pid nb.id m)
    rw [List.map_map, hcongr]
    exact hnd1
  · simp only [List.map_append, List.map_cons, List.map_nil]
    apply List.Nodup.append hnd2 (by simp)
    intro a ha hb'
    rw [List.mem_singleton] at hb'
    obtain ⟨b, hbm, hba⟩ := List.mem_map.mp ha
    have := (hbrs b hbm).1
    omega
  · exact hnd3

/-- `insertMessage` on an existing branch: the explicit result. -/
theorem insertMessage_spec (s : StorageState) (branchId : Nat) (b : Branch) (parentId : Option Nat)
    (lastHash : String) (lastSeq : Nat) (input : MessageInput)
    (hb : lookupBranch s branchId = some b) :
    insertMessage s branchId parentId lastHash lastSeq input =
      .ok ({ s with messages := s.messages ++
                      [{ simple := input.simple, id := s.nextId, conversationId := b.conversationId,
                         branchId := branchId, sequenceNumber := lastSeq + 1,
                         cumulativeHash := computeHash lastHash input.simple.role input.simple.content,
                         childBranchIds := [], parentMessageId := parentId,
                         upstreamStatusCode := input.upstreamStatusCode }],
                    nextId := s.nextId + 1 },
        { simple := input.simple, id := s.nextId, conversationId := b.conversationId,
          branchId := branchId, sequenceNumber := lastSeq + 1,
          cumulativeHash := computeHash lastHash input.simple.role input.simple.content,
          childBranchIds := [], parentMessageId := parentId,
          upstreamStatusCode := input.upstreamStatusCode }) := by
  unfold insertMessage
  rw [hb]

/-- `AddMessage` with an existing parent always succeeds, and the
result extends the store by exactly one message chained off the
parent's hash, sequence number and conversation; existing messages keep
their identity, hash and conversation (only the parent's
child-branch list may change, on a fork). -/
theorem addMessage_parent_spec (s : StorageState) (pid : Nat) (parent : Message)
    (input : MessageInput) (hWF : WellFormed s)
    (hparent : lookupMessage s pid = some parent) :
    ∃ s' msg, addMessage s (some pid) input = .ok (s', msg) ∧
      WellFormed s' ∧
      s'.conversations = s.conversations ∧
      s.nextId ≤ s'.nextId ∧
      lookupMessage s' msg.id = some msg ∧
      msg.cumulativeHash = computeHash parent.cumulativeHash input.simple.role input.simple.content ∧
      msg.sequenceNumber = parent.sequenceNumber + 1 ∧
      msg.parentMessageId = some pid ∧
      msg.conversationId = parent.conversationId ∧
      msg.simple = input.simple ∧
      s'.messages.map msgRoleContent = s.messages.map msgRoleContent ++ [roleContent input.simple] ∧
      s'.messages.map (fun m => m.parentMessageId) =
        s.messages.map (fun m => m.parentMessageId) ++ [some pid] ∧
      s'.messages.length = s.messages.length + 1 ∧
      (∀ m0 ∈ s.messages, ∃ m1 ∈ s'.messages, m1.id = m0.id ∧
        m1.cumulativeHash = m0.cumulativeHash ∧ m1.conversationId = m0.conversationId) := by
  have hmem : parent ∈ s.messages := List.mem_of_find?_eq_some hparent
  have hpid : parent.id = pid := by
    have := List.find?_some hparent
    simpa using this
  obtain ⟨b, hbmem, hbid, hbconv⟩ := (hWF.1 parent hmem).2.2
  have hlb : lookupBranch s parent.branchId = some b := by
    rw [← hbid]
    exact lookupBranch_of_mem s hWF b hbmem
  have hpidlt : pid < s.nextId := by
    have := (hWF.1 parent hmem).1
    omega
  have hbconvmem : ∃ c ∈ s.conversations, c.id = b.conversationId := (hWF.2.1 b hbmem).2
  unfold addMessage
  dsimp only
  rw [hparent]
  dsimp only
  by_cases hch : s.messages.any (fun m => m.parentMessageId == some pid) = true
  · -- fork path
    rw [if_pos hch, hlb]
    dsimp only
    have hWF1 : WellFormed { s with
        branches := s.branches ++
          [{ id := s.nextId, conversationId := b.conversationId,
             parentBranchId := some parent.branchId, parentMessageId := some pid }],
        messages := s.messages.map (recordChildBranch pid s.nextId),
        nextId := s.nextId + 1 } :=
      WellFormed_fork s hWF pid
        { id := s.nextId, conversationId := b.conversationId,
          parentBranchId := some parent.branchId, parentMessageId := some pid }
        rfl hbconvmem
    have hlb1 : lookupBranch { s with
        branches := s.branches ++
          [{ id := s.nextId, conversationId := b.conversationId,
             parentBranchId := some parent.branchId, parentMessageId := some pid }],
        messages := s.messages.map (recordChildBranch pid s.nextId),
        nextId := s.nextId + 1 } s.nextId =
      some { id := s.nextId, conversationId := b.conversationId,
             parentBranchId := some parent.branchId, parentMessageId := some pid } := by
      unfold lookupBranch
      dsimp only
      rw [find?_append_none _ _ _ (find?_branches_fresh s hWF s.nextId (Nat.le_refl _))]
      simp [List.find?]
    rw [insertMessage_spec _ _ _ _ _ _ _ hlb1]
    refine ⟨_, _, rfl, ?_, rfl, ?_, ?_, rfl, rfl, rfl, ?_, rfl, ?_, ?_, ?_, ?_⟩
    · exact WellFormed_insert _ hWF1 _ rfl
        (by simp only [optIdBelow, decide_eq_true_eq]; omega)
        ⟨{ id := s.nextId, conversationId := b.conversationId,
            parentBranchId := some parent.branchId, parentMessageId := some pid },
          by exact List.mem_append_right _ (List.mem_singleton_self _), rfl, rfl⟩
    · dsimp only
      omega
    · unfold lookupMessage
      dsimp only
      rw [find?_append_none]
      · simp [List.find?]
      · rw [List.find?_eq_none]
        intro m' hm'
        obtain ⟨m, hm, rfl⟩ := List.mem_map.mp hm'
        have := (hWF.1 m hm).1
        rw [recordChildBranch_id]
        simp only [beq_iff_eq]
        omega
    · exact hbconv
    · dsimp only
      rw [List.map_append, List.map_map]
      have hcongr : s.messages.map (msgRoleContent ∘ recordChildBranch pid s.nextId) =
          s.messages.map msgRoleContent :=
        List.map_congr_left (fun m _ => by
          simp [msgRoleContent, Function.comp, recordChildBranch_simple])
      rw [hcongr]
      rfl
    · dsimp only
      rw [List.map_append, List.map_map]
      have hcongr : s.messages.map ((fun m => m.parentMessageId) ∘ recordChildBranch pid s.nextId) =
          s.messages.map (fun m => m.parentMessageId) :=
        List.map_congr_left (fun m _ => recordChildBranch_parent pid s.nextId m)
      rw [hcongr]
      rfl
    · dsimp only
      rw [List.length_append, List.length_map]
      rfl
    · intro m0 hm0
      refine ⟨recordChildBranch pid s.nextId m0, ?_, ?_, ?_, ?_⟩
      · dsimp only
        exact List.mem_append_left _ (List.mem_map_of_mem _ hm0)
      · exact recordChildBranch_id pid s.nextId m0
      · exact recordChildBranch_hash pid s.nextId m0
      · exact recordChildBranch_conv pid s.nextId m0
  · -- extend path
    rw [if_neg hch]
    rw [insertMessage_spec _ _ _ _ _ _ _ hlb]
    refine ⟨_, _, rfl, ?_, rfl, ?_, ?_, rfl, rfl, rfl, ?_, rfl, ?_, ?_, ?_, ?_⟩
    · exact WellFormed_insert _ hWF _ rfl
        (by simp only [optIdBelow, decide_eq_true_eq]; omega)
        ⟨b, hbmem, hbid.symm ▸ rfl, rfl⟩
    · dsimp only
      omega
    · unfold lookupMessage
      dsimp only
      rw [find?_append_none _ _ _ (find?_messages_fresh s hWF s.nextId (Nat.le_refl _))]
      simp [List.find?]
    · exact hbconv
    · dsimp only
      rw [List.map_append]
      rfl
    · dsimp only
      rw [List.map_append]
      rfl
    · dsimp only
      rw [List.length_append]
      rfl
    · intro m0 hm0
      exact ⟨m0, List.mem_append_left _ hm0, rfl, rfl, rfl⟩

/-- `AddMessage` without a parent, on an existing branch: seeds the
hash chain with the empty string at sequence number 1. -/
theorem addMessage_root_spec (s : StorageState) (bid : Nat) (b : Branch)
    (input : MessageInput) (hWF : WellFormed s)
    (hbid : input.branchId = some bid)
    (hb : lookupBranch s bid = some b) :
    ∃ s' msg, addMessage s none input = .ok (s', msg) ∧
      WellFormed s' ∧
      s'.conversations = s.conversations ∧
      s.nextId ≤ s'.nextId ∧
      lookupMessage s' msg.id = some msg ∧
      msg.cumulativeHash = computeHash "" input.simple.role input.simple.content ∧
      msg.sequenceNumber = 1 ∧
      msg.parentMessageId = none ∧
      msg.conversationId = b.conversationId ∧
      msg.simple = input.simple ∧
      s'.messages.map msgRoleContent = s.messages.map msgRoleContent ++ [roleContent input.simple] ∧
      s'.messages.map (fun m => m.parentMessageId) =
        s.messages.map (fun m => m.parentMessageId) ++ [none] ∧
      s'.messages.length = s.messages.length + 1 ∧
      (∀ m0 ∈ s.messages, ∃ m1 ∈ s'.messages, m1.id = m0.id ∧
        m1.cumulativeHash = m0.cumulativeHash ∧ m1.conversationId = m0.conversationId) := by
  have hbmem : b ∈ s.branches := List.mem_of_find?_eq_some hb
  have hbide : b.id = bid := by
    have := List.find?_some hb
    simpa using this
  unfold addMessage
  dsimp only
  rw [hbid]
  dsimp only
  rw [insertMessage_spec _ _ _ _ _ _ _ hb]
  refine ⟨_, _, rfl, ?_, rfl, ?_, ?_, rfl, rfl, rfl, rfl, rfl, ?_, ?_, ?_, ?_⟩
  · exact WellFormed_insert _ hWF _ rfl rfl ⟨b, hbmem, hbide, rfl⟩
  · dsimp only
    omega
  · unfold lookupMessage
    dsimp only
    rw [find?_append_none _ _ _ (find?_messages_fresh s hWF s.nextId (Nat.le_refl _))]
    simp [List.find?]
  · dsimp only
    rw [List.map_append]
    rfl
  · dsimp only
    rw [List.map_append]
    rfl
  · dsimp only
    rw [List.length_append]
    rfl
  · intro m0 hm0
    exact ⟨m0, List.mem_append_left _ hm0, rfl, rfl, rfl⟩

/-- `CreateConversation`: explicit result and facts about the fresh
conversation and root branch. -/
theorem createConversation_spec (s : StorageState) (md : List (String × Json)) (rt : String)
    (hWF : WellFormed s) :
    WellFormed (createConversation s md rt).1 ∧
    (createConversation s md rt).1.messages = s.messages ∧
    (createConversation s md rt).1.conversations.length = s.conversations.length + 1 ∧
    s.nextId ≤ (createConversation s md rt).1.nextId ∧
    lookupBranch (createConversation s md rt).1 (createConversation s md rt).2.2.id =
      some (createConversation s md rt).2.2 ∧
    conversationRequestType (createConversation s md rt).1
      (createConversation s md rt).2.2.conversationId = some rt := by
  have hmsg := hWF.1
  have hbrs := hWF.2.1
  have hconv := hWF.2.2.1
  have hnd1 := hWF.2.2.2.1
  have hnd2 := hWF.2.2.2.2.1
  have hnd3 := hWF.2.2.2.2.2
  refine ⟨⟨?_, ?_, ?_, ?_, ?_, ?_⟩, rfl, ?_, ?_, ?_, ?_⟩ <;>
    simp only [createConversation]
  · intro m hm
    obtain ⟨h1, h2, h3⟩ := hmsg m hm
    refine ⟨by omega, optIdBelow_mono _ _ _ h2 (by omega), ?_⟩
    obtain ⟨b, hb, hb1, hb2⟩ := h3
    exact ⟨b, List.mem_append_left _ hb, hb1, hb2⟩
  · intro b hb
    rcases List.mem_append.mp hb with h | h
    · obtain ⟨h1, h2⟩ := hbrs b h
      obtain ⟨c, hc, hc2⟩ := h2
      exact ⟨by omega, c, List.mem_append_left _ hc, hc2⟩
    · rw [List.mem_singleton] at h
      subst h
      exact ⟨by dsimp only; omega, ⟨{ id := s.nextId, requestType := rt, metadata := md },
        List.mem_append_right _ (List.mem_singleton_self _), rfl⟩⟩
  · intro c hc
    rcases List.mem_append.mp hc with h | h
    · have := hconv c h
      omega
    · rw [List.mem_singleton] at h
      subst h
      dsimp only
      omega
  · exact hnd1
  · simp only [List.map_append, List.map_cons, List.map_nil]
    apply List.Nodup.append hnd2 (by simp)
    intro a ha hb'
    rw [List.mem_singleton] at hb'
    obtain ⟨b, hbm, hba⟩ := List.mem_map.mp ha
    have := (hbrs b hbm).1
    omega
  · simp only [List.map_append, List.map_cons, List.map_nil]
    apply List.Nodup.append hnd3 (by simp)
    intro a ha hb'
    rw [List.mem_singleton] at hb'
    obtain ⟨c, hcm, hca⟩ := List.mem_map.mp ha
    have := hconv c hcm
    omega
  · rw [List.length_append]
    rfl
  · omega
  · unfold lookupBranch
    rw [find?_append_none _ _ _ (find?_branches_fresh s hWF (s.nextId + 1) (by omega))]
    simp [List.find?]
  · unfold conversationRequestType lookupConversation
    rw [find?_append_none _ _ _ (find?_conversations_fresh s hWF s.nextId (Nat.le_refl _))]
    simp [List.find?]

/-- Replaying a list of messages under an existing parent: every step
succeeds, the final parent's hash is the `computeHash` chain over the
replayed messages, and the store grows by exactly their (role, content)
pairs. -/
theorem appendHistory_some (msgs : List SimpleMessage) (s : StorageState) (pid : Nat)
    (parent : Message) (bo : Option Nat) (hWF : WellFormed s)
    (hparent : lookupMessage s pid = some parent) :
    ∃ s' pid' parent',
      appendHistory s (some pid) bo msgs = (s', some (some pid')) ∧
      WellFormed s' ∧
      s'.conversations = s.conversations ∧
      s.nextId ≤ s'.nextId ∧
      lookupMessage s' pid' = some parent' ∧
      parent'.cumulativeHash =
        msgs.foldl (fun h m => computeHash h m.role m.content) parent.cumulativeHash ∧
      parent'.conversationId = parent.conversationId ∧
      s'.messages.map msgRoleContent = s.messages.map msgRoleContent ++ msgs.map roleContent ∧
      s'.messages.length = s.messages.length + msgs.length ∧
      (∀ m0 ∈ s.messages, ∃ m1 ∈ s'.messages, m1.id = m0.id ∧
        m1.cumulativeHash = m0.cumulativeHash ∧ m1.conversationId = m0.conversationId) := by
  induction msgs generalizing s pid parent bo with
  | nil =>
    exact ⟨s, pid, parent, rfl, hWF, rfl, Nat.le_refl _, hparent, rfl, rfl, by simp, rfl,
      fun m0 hm0 => ⟨m0, hm0, rfl, rfl, rfl⟩⟩
  | cons m rest ih =>
    obtain ⟨s1, msg, hadd, hWF1, hconv1, hnext1, hlook1, hhash1, hseq1, hpar1, hcid1, hsimple1,
      hmap1, hpmap1, hlen1, hpres1⟩ :=
      addMessage_parent_spec s pid parent { simple := m, branchId := bo } hWF hparent
    obtain ⟨s', pid', parent', happ, hWF', hconv', hnext', hlook', hhash', hcid', hmap', hlen',
      hpres'⟩ := ih s1 msg.id msg none hWF1 hlook1
    have hstep : appendHistory s (some pid) bo (m :: rest) =
        appendHistory s1 (some msg.id) none rest := by
      show (match addMessage s (some pid) { simple := m, branchId := bo } with
            | .ok (s', msg) => appendHistory s' (some msg.id) none rest
            | .error _ => (s, none)) = appendHistory s1 (some msg.id) none rest
      rw [hadd]
    refine ⟨s', pid', parent', ?_, hWF', hconv'.trans hconv1, by omega, hlook', ?_, ?_, ?_, ?_, ?_⟩
    · rw [hstep]
      exact happ
    · rw [hhash', hhash1]
      simp only [List.foldl_cons]
    · exact hcid'.trans hcid1
    · rw [hmap', hmap1, List.append_assoc]
      rfl
    · rw [hlen', hlen1, List.length_cons]
      omega
    · intro m0 hm0
      obtain ⟨m1, hm1, h1, h2, h3⟩ := hpres1 m0 hm0
      obtain ⟨m2, hm2, g1, g2, g3⟩ := hpres' m1 hm1
      exact ⟨m2, hm2, g1.trans h1, g2.trans h2, g3.trans h3⟩

/-- Appending a non-empty history onto a fresh branch of a new
conversation: the first message is chained from the empty hash, so the
final parent's hash is exactly `computeHistoryHash` of the history. -/
theorem appendHistory_root (m : SimpleMessage) (rest : List SimpleMessage) (s : StorageState)
    (bid : Nat) (b : Branch) (hWF : WellFormed s) (hb : lookupBranch s bid = some b) :
    ∃ s' pid' parent',
      appendHistory s none (some bid) (m :: rest) = (s', some (some pid')) ∧
      WellFormed s' ∧
      s'.conversations = s.conversations ∧
      s.nextId ≤ s'.nextId ∧
      lookupMessage s' pid' = some parent' ∧
      parent'.cumulativeHash = computeHistoryHash (m :: rest) ∧
      parent'.conversationId = b.conversationId ∧
      s'.messages.map msgRoleContent =
        s.messages.map msgRoleContent ++ (m :: rest).map roleContent ∧
      s'.messages.length = s.messages.length + (m :: rest).length := by
  obtain ⟨s1, msg, hadd, hWF1, hconv1, hnext1, hlook1, hhash1, hseq1, hpar1, hcid1, hsimple1,
    hmap1, hpmap1, hlen1, hpres1⟩ :=
    addMessage_root_spec s bid b { simple := m, branchId := some bid } hWF rfl hb
  obtain ⟨s', pid', parent', happ, hWF', hconv', hnext', hlook', hhash', hcid', hmap', hlen',
    hpres'⟩ := appendHistory_some rest s1 msg.id msg none hWF1 hlook1
  have hstep : appendHistory s none (some bid) (m :: rest) =
      appendHistory s1 (some msg.id) none rest := by
    show (match addMessage s none { simple := m, branchId := some bid } with
          | .ok (s', msg) => appendHistory s' (some msg.id) none rest
          | .error _ => (s, none)) = appendHistory s1 (some msg.id) none rest
    rw [hadd]
  refine ⟨s', pid', parent', ?_, hWF', hconv'.trans hconv1, by omega, hlook', ?_, ?_, ?_, ?_⟩
  · rw [hstep]
    exact happ
  · rw [hhash', hhash1]
    unfold computeHistoryHash
    simp only [List.foldl_cons]
  · exact hcid'.trans hcid1
  · rw [hmap', hmap1, List.append_assoc]
    rfl
  · rw [hlen', hlen1, List.length_cons]
    omega

/-- Soundness of the hash search: a hit is an existing message whose
hash is the history's hash, in a conversation of the right type. -/
theorem findMessageByHistory_some (s : StorageState) (h : List SimpleMessage) (rt : String)
    (pid : Nat) (hWF : WellFormed s) (hfind : findMessageByHistory s h rt = some pid) :
    ∃ m, lookupMessage s pid = some m ∧ m.cumulativeHash = computeHistoryHash h ∧
      conversationRequestType s m.conversationId = some rt := by
  unfold findMessageByHistory at hfind
  by_cases hemp : h.isEmpty
  · rw [if_pos hemp] at hfind
    exact absurd hfind (by simp)
  · rw [if_neg hemp] at hfind
    obtain ⟨m, hm, hid⟩ := Option.map_eq_some'.mp hfind
    have hmem := getLast?_mem_of_eq_some hm
    rw [List.mem_filter] at hmem
    obtain ⟨hmem, hprop⟩ := hmem
    rw [Bool.and_eq_true, beq_iff_eq, beq_iff_eq] at hprop
    refine ⟨m, ?_, hprop.1, hprop.2⟩
    rw [← hid]
    exact lookupMessage_of_mem s hWF m hmem

/-- Completeness of the hash search: as soon as some stored message in
a right-typed conversation carries the history's hash, the search
returns a hit. -/
theorem findMessageByHistory_isSome (s : StorageState) (h : List SimpleMessage) (rt : String)
    (m : Message) (hne : h ≠ []) (hmem : m ∈ s.messages)
    (hhash : m.cumulativeHash = computeHistoryHash h)
    (hrt : conversationRequestType s m.conversationId = some rt) :
    (findMessageByHistory s h rt).isSome := by
  unfold findMessageByHistory
  rw [if_neg (by simpa using hne)]
  rw [Option.isSome_map']
  have hmf : m ∈ s.messages.filter (fun m =>
      m.cumulativeHash == computeHistoryHash h &&
        conversationRequestType s m.conversationId == some rt) := by
    rw [List.mem_filter]
    exact ⟨hmem, by rw [Bool.and_eq_true, beq_iff_eq, beq_iff_eq]; exact ⟨hhash, hrt⟩⟩
  rw [List.getLast?_isSome]
  exact List.ne_nil_of_mem hmf

theorem findMatchAux_nil (s : StorageState) (rt : String) (fuel : Nat) :
    findMatchAux s rt fuel [] = (none, 0) := by
  cases fuel <;> rfl

theorem take_dropLast {α : Type} (l : List α) (k : Nat) (hk : k ≤ l.length - 1) :
    l.dropLast.take k = l.take k := by
  rw [List.dropLast_eq_take, List.take_take, Nat.min_eq_left hk]

/-- The prefix-search loop either reports no match, or a matched prefix
of positive length together with the hit for exactly that prefix. -/
theorem findMatchAux_cases (s : StorageState) (rt : String) (fuel : Nat) :
    ∀ cur : List SimpleMessage, cur.length ≤ fuel →
      findMatchAux s rt fuel cur = (none, 0) ∨
      ∃ pid k, 1 ≤ k ∧ k ≤ cur.length ∧
        findMessageByHistory s (cur.take k) rt = some pid ∧
        findMatchAux s rt fuel cur = (some pid, k) := by
  induction fuel with
  | zero =>
    intro cur hlen
    left
    rfl
  | succ n ih =>
    intro cur hlen
    match cur with
    | [] =>
      left
      rfl
    | first :: tail =>
      have hstep : findMatchAux s rt (n + 1) (first :: tail) =
          match findMessageByHistory s (first :: tail) rt with
          | some pid =>
            if (first :: tail).length == 1 && first.role == "system" then (none, 0)
            else (some pid, (first :: tail).length)
          | none => findMatchAux s rt n (first :: tail).dropLast := rfl
      cases hfind : findMessageByHistory s (first :: tail) rt with
      | some pid =>
        by_cases hss : ((first :: tail).length == 1 && first.role == "system") = true
        · left
          rw [hstep, hfind]
          exact if_pos hss
        · right
          refine ⟨pid, (first :: tail).length, by simp, Nat.le_refl _, ?_, ?_⟩
          · rw [List.take_length]
            exact hfind
          · rw [hstep, hfind]
            exact if_neg hss
      | none =>
        have hlen' : (first :: tail).dropLast.length ≤ n := by
          rw [List.length_dropLast]
          simp only [List.length_cons] at hlen ⊢
          omega
        rcases ih (first :: tail).dropLast hlen' with hnone | ⟨pid, k, hk1, hk2, hfind', heq⟩
        · left
          rw [hstep, hfind]
          exact hnone
        · right
          have hkle : k ≤ (first :: tail).length - 1 := by
            rw [List.length_dropLast] at hk2
            exact hk2
          refine ⟨pid, k, hk1, ?_, ?_, ?_⟩
          · rw [List.length_dropLast, List.length_cons] at hk2
            simp only [List.length_cons]
            omega
          · rw [← take_dropLast _ _ hkle]
            exact hfind'
          · rw [hstep, hfind]
            exact heq

theorem findMatch_cases (s : StorageState) (h : List SimpleMessage) (rt : String) :
    findMatch s h rt = (none, 0) ∨
    ∃ pid k, 1 ≤ k ∧ k ≤ h.length ∧
      findMessageByHistory s (h.take k) rt = some pid ∧
      findMatch s h rt = (some pid, k) :=
  findMatchAux_cases s rt h.length h (Nat.le_refl _)

/-- When the full history already matches (and is not a lone system
message), the prefix search stops at the top with the full length. -/
theorem findMatch_full (s : StorageState) (h : List SimpleMessage) (rt : String) (pid : Nat)
    (hne : h ≠ []) (hfind : findMessageByHistory s h rt = some pid)
    (hns : ¬(h.length = 1 ∧ h.headI.role = "system")) :
    findMatch s h rt = (some pid, h.length) := by
  match h, hne with
  | first :: tail, _ =>
    have hstep : findMatch s (first :: tail) rt =
        match findMessageByHistory s (first :: tail) rt with
        | some pid =>
          if (first :: tail).length == 1 && first.role == "system" then (none, 0)
          else (some pid, (first :: tail).length)
        | none => findMatchAux s rt tail.length (first :: tail).dropLast := rfl
    have hcond : ¬(((first :: tail).length == 1 && first.role == "system") = true) := by
      simp only [List.length_cons, Bool.and_eq_true, beq_iff_eq, not_and]
      intro h1 h2
      exact hns ⟨by simpa using h1, h2⟩
    rw [hstep, hfind]
    exact if_neg hcond

/-- Descent lemma for the single-system special case: when every
prefix of length at least two misses, the search ends with no match —
a lone system-message hit is discarded by the guard. -/
theorem findMatchAux_system (s : StorageState) (rt : String) (sys : SimpleMessage)
    (hsys : sys.role = "system") (fuel : Nat) :
    ∀ cur : List SimpleMessage, cur.length ≤ fuel → cur.headI = sys →
      (∀ k, 2 ≤ k → k ≤ cur.length → findMessageByHistory s (cur.take k) rt = none) →
      findMatchAux s rt fuel cur = (none, 0) := by
  induction fuel with
  | zero =>
    intro cur _ _ _
    rfl
  | succ n ih =>
    intro cur hlen hhead hfail
    match cur with
    | [] => rfl
    | [first] =>
      have hfirst : first = sys := hhead
      cases hf : findMessageByHistory s [first] rt with
      | some pid =>
        have hstep : findMatchAux s rt (n + 1) [first] =
            if ([first].length == 1 && first.role == "system") = true then (none, 0)
            else (some pid, [first].length) := by
          show (match findMessageByHistory s [first] rt with
                | some pid =>
                  if ([first].length == 1 && first.role == "system") = true
                  then ((none : Option Nat), 0)
                  else (some pid, [first].length)
                | none => findMatchAux s rt n []) = _
          rw [hf]
        rw [hstep, if_pos (by rw [hfirst, hsys]; rfl)]
      | none =>
        have hstep : findMatchAux s rt (n + 1) [first] = findMatchAux s rt n [] := by
          show (match findMessageByHistory s [first] rt with
                | some pid =>
                  if ([first].length == 1 && first.role == "system") = true
                  then ((none : Option Nat), 0)
                  else (some pid, [first].length)
                | none => findMatchAux s rt n []) = _
          rw [hf]
        rw [hstep]
        exact findMatchAux_nil s rt n
    | first :: second :: tail =>
      have hfind : findMessageByHistory s (first :: second :: tail) rt = none := by
        have := hfail (first :: second :: tail).length (by simp) (Nat.le_refl _)
        rwa [List.take_length] at this
      have hstep : findMatchAux s rt (n + 1) (first :: second :: tail) =
          findMatchAux s rt n (first :: second :: tail).dropLast := by
        show (match findMessageByHistory s (first :: second :: tail) rt with
              | some pid =>
                if (first :: second :: tail).length == 1 && first.role == "system"
                then ((none : Option Nat), 0)
                else (some pid, (first :: second :: tail).length)
              | none => findMatchAux s rt n (first :: second :: tail).dropLast) = _
        rw [hfind]
      rw [hstep]
      have hdl : (first :: second :: tail).dropLast = first :: (second :: tail).dropLast :=
        List.dropLast_cons_of_ne_nil (by simp)
      refine ih (first :: second :: tail).dropLast ?_ ?_ ?_
      · rw [List.length_dropLast]
        simp only [List.length_cons] at hlen ⊢
        omega
      · rw [hdl]
        exact hhead
      · intro k hk2 hkle
        have hkle' : k ≤ (first :: second :: tail).length - 1 := by
          rw [List.length_dropLast] at hkle
          exact hkle
        rw [take_dropLast _ _ hkle']
        refine hfail k hk2 ?_
        simp only [List.length_cons] at hkle' ⊢
        omega

/-- On a history headed by a system message whose longer prefixes all
miss, `findMatch` reports no reusable parent. -/
theorem findMatch_system_none (s : StorageState) (sys : SimpleMessage)
    (rest : List SimpleMessage) (rt : String) (hsys : sys.role = "system")
    (hfail : ∀ k, 2 ≤ k → k ≤ (sys :: rest).length →
      findMessageByHistory s ((sys :: rest).take k) rt = none) :
    findMatch s (sys :: rest) rt = (none, 0) :=
  findMatchAux_system s rt sys hsys (sys :: rest).length (sys :: rest) (Nat.le_refl _) rfl hfail

/-- Chaining the history hash: folding the dropped tail on top of the
taken prefix's hash gives the full history's hash. -/
theorem computeHistoryHash_take_drop (h : List SimpleMessage) (k : Nat) :
    (h.drop k).foldl (fun acc m => computeHash acc m.role m.content)
      (computeHistoryHash (h.take k)) = computeHistoryHash h := by
  unfold computeHistoryHash
  rw [← List.foldl_append, List.take_append_drop]

/-- `SaveToStorage` when the prefix search reports no reusable parent:
one fresh conversation, the entire history replayed into it (plus the
assistant when its guard passes), and the final message carries the
full history's hash in a conversation of the right request type. -/
theorem saveToStorage_noMatch (s : StorageState) (m : SimpleMessage)
    (rest : List SimpleMessage) (a : SimpleMessage) (st : Nat) (rt : String)
    (hWF : WellFormed s) (hfm : findMatch s (m :: rest) rt = (none, 0)) :
    WellFormed (saveToStorage s (m :: rest) a st rt) ∧
    (saveToStorage s (m :: rest) a st rt).conversations.length = s.conversations.length + 1 ∧
    (saveToStorage s (m :: rest) a st rt).messages.map msgRoleContent =
      s.messages.map msgRoleContent ++ (m :: rest).map roleContent ++
        (if assistantGuard a st then [roleContent a] else []) ∧
    ∃ mm ∈ (saveToStorage s (m :: rest) a st rt).messages,
      mm.cumulativeHash = computeHistoryHash (m :: rest) ∧
      conversationRequestType (saveToStorage s (m :: rest) a st rt) mm.conversationId =
        some rt := by
  obtain ⟨hcWF, hcmsg, hclen, hcnext, hcb, hcrt⟩ :=
    createConversation_spec s [("model", Json.str m.model)] rt hWF
  obtain ⟨s', pid', parent', happ, hWF', hconv', hnext', hlook', hhash', hcid', hmap', hlen'⟩ :=
    appendHistory_root m rest (createConversation s [("model", Json.str m.model)] rt).1
      (createConversation s [("model", Json.str m.model)] rt).2.2.id
      (createConversation s [("model", Json.str m.model)] rt).2.2 hcWF hcb
  have hstep1 : saveToStorage s (m :: rest) a st rt =
      (match appendHistory (createConversation s [("model", Json.str m.model)] rt).1 none
          (some (createConversation s [("model", Json.str m.model)] rt).2.2.id)
          ((m :: rest).drop 0) with
        | (s2, none) => s2
        | (s2, some parent2) =>
          if assistantGuard a st then
            match addMessage s2 parent2 { simple := a, upstreamStatusCode := st } with
            | .ok (s3, _) => s3
            | .error _ => s2
          else s2) := by
    unfold saveToStorage
    rw [hfm]
  rw [List.drop_zero, happ] at hstep1
  dsimp only at hstep1
  have hmem' : parent' ∈ s'.messages := List.mem_of_find?_eq_some hlook'
  by_cases hg : assistantGuard a st = true
  · rw [if_pos hg] at hstep1
    obtain ⟨s3, msg3, hadd3, hWF3, hconv3, hnext3, hlook3, hhash3, hseq3, hpar3, hcid3,
      hsimple3, hmap3, hpmap3, hlen3, hpres3⟩ :=
      addMessage_parent_spec s' pid' parent' { simple := a, upstreamStatusCode := st } hWF' hlook'
    rw [hadd3] at hstep1
    dsimp only at hstep1
    rw [hstep1]
    refine ⟨hWF3, ?_, ?_, ?_⟩
    · rw [hconv3, hconv', hclen]
    · rw [hmap3, hmap', hcmsg, if_pos hg]
    · obtain ⟨m1, hm1, hid1, hh1, hc1⟩ := hpres3 parent' hmem'
      refine ⟨m1, hm1, hh1.trans hhash', ?_⟩
      rw [hc1, hcid']
      rw [conversationRequestType_congr _ s3 (hconv3.trans hconv')]
      exact hcrt
  · rw [if_neg hg] at hstep1
    rw [hstep1]
    refine ⟨hWF', ?_, ?_, ?_⟩
    · rw [hconv', hclen]
    · rw [hmap', hcmsg, if_neg hg, List.append_nil]
    · refine ⟨parent', hmem', hhash', ?_⟩
      rw [hcid']
      rw [conversationRequestType_congr _ s' hconv']
      exact hcrt

/-- `SaveToStorage` when the prefix search found a reusable parent for
the k-message prefix: no conversation is created, only the dropped tail
(plus the guarded assistant) is appended, and the store ends up holding
a message with the full history's hash in a right-typed conversation. -/
theorem saveToStorage_match (s : StorageState) (h : List SimpleMessage) (a : SimpleMessage)
    (st : Nat) (rt : String) (pid k : Nat) (hWF : WellFormed s)
    (hfind : findMessageByHistory s (h.take k) rt = some pid)
    (hfm : findMatch s h rt = (some pid, k)) :
    WellFormed (saveToStorage s h a st rt) ∧
    (saveToStorage s h a st rt).conversations = s.conversations ∧
    (saveToStorage s h a st rt).messages.map msgRoleContent =
      s.messages.map msgRoleContent ++ (h.drop k).map roleContent ++
        (if assistantGuard a st then [roleContent a] else []) ∧
    ∃ mm ∈ (saveToStorage s h a st rt).messages,
      mm.cumulativeHash = computeHistoryHash h ∧
      conversationRequestType (saveToStorage s h a st rt) mm.conversationId = some rt := by
  obtain ⟨m0, hlook0, hhash0, hrt0⟩ := findMessageByHistory_some s (h.take k) rt pid hWF hfind
  obtain ⟨s', pid', parent', happ, hWF', hconv', hnext', hlook', hhash', hcid', hmap', hlen',
    hpres'⟩ := appendHistory_some (h.drop k) s pid m0 none hWF hlook0
  have hfull : parent'.cumulativeHash = computeHistoryHash h := by
    rw [hhash', hhash0]
    exact computeHistoryHash_take_drop h k
  have hstep1 : saveToStorage s h a st rt =
      (match appendHistory s (some pid) none (h.drop k) with
        | (s2, none) => s2
        | (s2, some parent2) =>
          if assistantGuard a st then
            match addMessage s2 parent2 { simple := a, upstreamStatusCode := st } with
            | .ok (s3, _) => s3
            | .error _ => s2
          else s2) := by
    unfold saveToStorage
    rw [hfm]
  rw [happ] at hstep1
  dsimp only at hstep1
  have hmem' : parent' ∈ s'.messages := List.mem_of_find?_eq_some hlook'
  by_cases hg : assistantGuard a st = true
  · rw [if_pos hg] at hstep1
    obtain ⟨s3, msg3, hadd3, hWF3, hconv3, hnext3, hlook3, hhash3, hseq3, hpar3, hcid3,
      hsimple3, hmap3, hpmap3, hlen3, hpres3⟩ :=
      addMessage_parent_spec s' pid' parent' { simple := a, upstreamStatusCode := st } hWF' hlook'
    rw [hadd3] at hstep1
    dsimp only at hstep1
    rw [hstep1]
    refine ⟨hWF3, hconv3.trans hconv', ?_, ?_⟩
    · rw [hmap3, hmap', if_pos hg]
    · obtain ⟨m1, hm1, hid1, hh1, hc1⟩ := hpres3 parent' hmem'
      refine ⟨m1, hm1, hh1.trans hfull, ?_⟩
      rw [hc1, hcid']
      rw [conversationRequestType_congr s s3 (hconv3.trans hconv')]
      exact hrt0
  · rw [if_neg hg] at hstep1
    rw [hstep1]
    refine ⟨hWF', hconv', ?_, ?_⟩
    · rw [hmap', if_neg hg, List.append_nil]
    · refine ⟨parent', hmem', hfull, ?_⟩
      rw [hcid']
      rw [conversationRequestType_congr s s' hconv']
      exact hrt0

/-! ## Claim C2 -/

/-- C2: `AddMessage` with an existing parent: when the parent already
has at least one child message, a new branch is inserted with
`parent_branch_id` the parent's branch and `parent_message_id` the
parent's ID, the new branch's ID is appended to the parent's
child-branch list, and the new message lands on that new branch
(distinct from the parent's); otherwise the message extends the
parent's branch.  Either way the new message's sequence number is the
parent's plus one and its hash is `SHA256(parent_hash ++ role ++
content)`. -/
theorem c2_addMessage_branching (s : StorageState) (pid : Nat) (parent : Message)
    (input : MessageInput) (hWF : WellFormed s)
    (hparent : lookupMessage s pid = some parent) :
    ∃ s' msg, addMessage s (some pid) input = .ok (s', msg) ∧
      msg.sequenceNumber = parent.sequenceNumber + 1 ∧
      msg.cumulativeHash =
        computeHash parent.cumulativeHash input.simple.role input.simple.content ∧
      (if s.messages.any (fun m0 => m0.parentMessageId == some pid) then
        ∃ nb ∈ s'.branches,
          nb.id = msg.branchId ∧
          nb.parentBranchId = some parent.branchId ∧
          nb.parentMessageId = some pid ∧
          msg.branchId ≠ parent.branchId ∧
          ∃ parent', lookupMessage s' pid = some parent' ∧
            parent'.childBranchIds = parent.childBranchIds ++ [msg.branchId]
      else msg.branchId = parent.branchId) := by
  have hmem : parent ∈ s.messages := List.mem_of_find?_eq_some hparent
  have hpid : parent.id = pid := by
    have := List.find?_some hparent
    simpa using this
  obtain ⟨b, hbmem, hbid, hbconv⟩ := (hWF.1 parent hmem).2.2
  have hlb : lookupBranch s parent.branchId = some b := by
    rw [← hbid]
    exact lookupBranch_of_mem s hWF b hbmem
  have hblt : parent.branchId < s.nextId := hbid ▸ (hWF.2.1 b hbmem).1
  unfold addMessage
  dsimp only
  rw [hparent]
  dsimp only
  by_cases hch : s.messages.any (fun m0 => m0.parentMessageId == some pid) = true
  · rw [if_pos hch, hlb]
    dsimp only
    have hlb1 : lookupBranch { s with
        branches := s.branches ++
          [{ id := s.nextId, conversationId := b.conversationId,
             parentBranchId := some parent.branchId, parentMessageId := some pid }],
        messages := s.messages.map (recordChildBranch pid s.nextId),
        nextId := s.nextId + 1 } s.nextId =
      some { id := s.nextId, conversationId := b.conversationId,
             parentBranchId := some parent.branchId, parentMessageId := some pid } := by
      unfold lookupBranch
      dsimp only
      rw [find?_append_none _ _ _ (find?_branches_fresh s hWF s.nextId (Nat.le_refl _))]
      simp [List.find?]
    rw [insertMessage_spec _ _ _ _ _ _ _ hlb1]
    refine ⟨_, _, rfl, rfl, rfl, ?_⟩
    rw [if_pos hch]
    refine ⟨{ id := s.nextId, conversationId := b.conversationId,
              parentBranchId := some parent.branchId, parentMessageId := some pid },
      ?_, rfl, rfl, rfl, ?_, ?_⟩
    · dsimp only
      exact List.mem_append_right _ (List.mem_singleton_self _)
    · dsimp only
      omega
    · refine ⟨recordChildBranch pid s.nextId parent, ?_, ?_⟩
      · unfold lookupMessage
        dsimp only
        apply find?_append_some
        have hcongr : (s.messages.map (recordChildBranch pid s.nextId)).map (fun x => x.id) =
            s.messages.map (fun x => x.id) := by
          rw [List.map_map]
          exact List.map_congr_left (fun m0 _ => recordChildBranch_id pid s.nextId m0)
        have hnodup : ((s.messages.map (recordChildBranch pid s.nextId)).map (fun x => x.id)).Nodup := by
          rw [hcongr]
          exact hWF.2.2.2.1
        have hfind := find?_beq_of_mem_nodup (fun x => x.id)
          (s.messages.map (recordChildBranch pid s.nextId)) hnodup
          (recordChildBranch pid s.nextId parent)
          (List.mem_map_of_mem _ hmem)
        simp only [recordChildBranch_id, hpid] at hfind
        exact hfind
      · unfold recordChildBranch
        rw [if_pos (by simp [hpid])]
  · rw [if_neg hch]
    rw [insertMessage_spec _ _ _ _ _ _ _ hlb]
    refine ⟨_, _, rfl, rfl, rfl, ?_⟩
    rw [if_neg hch]

set_option maxRecDepth 8000 in
/-- Witness for C2, exercising the fork case: a store holding a
two-message chain on one branch; adding a second child under the first
message creates a new branch recorded on the parent's child-branch
list. -/
theorem c2_witness :
    WellFormed
      { conversations := [{ id := 0, requestType := "chat", metadata := [] }],
        branches := [{ id := 1, conversationId := 0, parentBranchId := none,
                       parentMessageId := none }],
        messages := [
          { simple := { role := "user", content := "Hello" }, id := 2, conversationId := 0,
            branchId := 1, sequenceNumber := 1,
            cumulativeHash := "9c41fd39c0bfb1aa09ccb538886215838d8006cda544b478d122319863f3255d",
            childBranchIds := [], parentMessageId := none, upstreamStatusCode := 0 },
          { simple := { role := "assistant", content := "Hi there" }, id := 3,
            conversationId := 0, branchId := 1, sequenceNumber := 2,
            cumulativeHash := "c1fdd955939c66d8c67eae7ff9c2ed0f4032efe51898e303b9bd584b303db745",
            childBranchIds := [], parentMessageId := some 2, upstreamStatusCode := 0 }],
        nextId := 4 } ∧
    lookupMessage
      { conversations := [{ id := 0, requestType := "chat", metadata := [] }],
        branches := [{ id := 1, conversationId := 0, parentBranchId := none,
                       parentMessageId := none }],
        messages := [
          { simple := { role := "user", content := "Hello" }, id := 2, conversationId := 0,
            branchId := 1, sequenceNumber := 1,
            cumulativeHash := "9c41fd39c0bfb1aa09ccb538886215838d8006cda544b478d122319863f3255d",
            childBranchIds := [], parentMessageId := none, upstreamStatusCode := 0 },
          { simple := { role := "assistant", content := "Hi there" }, id := 3,
            conversationId := 0, branchId := 1, sequenceNumber := 2,
            cumulativeHash := "c1fdd955939c66d8c67eae7ff9c2ed0f4032efe51898e303b9bd584b303db745",
            childBranchIds := [], parentMessageId := some 2, upstreamStatusCode := 0 }],
        nextId := 4 } 2 =
      some { simple := { role := "user", content := "Hello" }, id := 2, conversationId := 0,
             branchId := 1, sequenceNumber := 1,
             cumulativeHash := "9c41fd39c0bfb1aa09ccb538886215838d8006cda544b478d122319863f3255d",
             childBranchIds := [], parentMessageId := none, upstreamStatusCode := 0 } ∧
    (∃ s' msg, addMessage
      { conversations := [{ id := 0, requestType := "chat", metadata := [] }],
        branches := [{ id := 1, conversationId := 0, parentBranchId := none,
                       parentMessageId := none }],
        messages := [
          { simple := { role := "user", content := "Hello" }, id := 2, conversationId := 0,
            branchId := 1, sequenceNumber := 1,
            cumulativeHash := "9c41fd39c0bfb1aa09ccb538886215838d8006cda544b478d122319863f3255d",
            childBranchIds := [], parentMessageId := none, upstreamStatusCode := 0 },
          { simple := { role := "assistant", content := "Hi there" }, id := 3,
            conversationId := 0, branchId := 1, sequenceNumber := 2,
            cumulativeHash := "c1fdd955939c66d8c67eae7ff9c2ed0f4032efe51898e303b9bd584b303db745",
            childBranchIds := [], parentMessageId := some 2, upstreamStatusCode := 0 }],
        nextId := 4 } (some 2)
      { simple := { role := "user", content := "What is the weather?" } } = .ok (s', msg) ∧
      msg.sequenceNumber = 2 ∧
      msg.cumulativeHash =
        computeHash "9c41fd39c0bfb1aa09ccb538886215838d8006cda544b478d122319863f3255d"
          "user" "What is the weather?" ∧
      ∃ nb ∈ s'.branches,
        nb.id = msg.branchId ∧
        nb.parentBranchId = some 1 ∧
        nb.parentMessageId = some 2 ∧
        msg.branchId ≠ 1 ∧
        ∃ parent', lookupMessage s' 2 = some parent' ∧
          parent'.childBranchIds = [msg.branchId]) :=
  ⟨by decide, rfl,
    c2_addMessage_branching
      { conversations := [{ id := 0, requestType := "chat", metadata := [] }],
        branches := [{ id := 1, conversationId := 0, parentBranchId := none,
                       parentMessageId := none }],
        messages := [
          { simple := { role := "user", content := "Hello" }, id := 2, conversationId := 0,
            branchId := 1, sequenceNumber := 1,
            cumulativeHash := "9c41fd39c0bfb1aa09ccb538886215838d8006cda544b478d122319863f3255d",
            childBranchIds := [], parentMessageId := none, upstreamStatusCode := 0 },
          { simple := { role := "assistant", content := "Hi there" }, id := 3,
            conversationId := 0, branchId := 1, sequenceNumber := 2,
            cumulativeHash := "c1fdd955939c66d8c67eae7ff9c2ed0f4032efe51898e303b9bd584b303db745",
            childBranchIds := [], parentMessageId := some 2, upstreamStatusCode := 0 }],
        nextId := 4 } 2
      { simple := { role := "user", content := "Hello" }, id := 2, conversationId := 0,
             branchId := 1, sequenceNumber := 1,
             cumulativeHash := "9c41fd39c0bfb1aa09ccb538886215838d8006cda544b478d122319863f3255d",
             childBranchIds := [], parentMessageId := none, upstreamStatusCode := 0 }
      { simple := { role := "user", content := "What is the weather?" } } (by decide) rfl⟩

/-! ## Claim C3 -/

/-- C3: when the longest matching prefix of the history is exactly one
message, of role "system" (every prefix of length at least two misses),
the saving mixin treats it as no match: the store gains a fresh
conversation and the entire history — the system message included — is
appended fresh (followed by the assistant when its guard passes),
instead of branching off the persisted system message. -/
theorem c3_single_system_fresh (s : StorageState) (sys : SimpleMessage)
    (rest : List SimpleMessage) (a : SimpleMessage) (st : Nat) (rt : String)
    (hWF : WellFormed s) (hsys : sys.role = "system")
    (hmatch : (findMessageByHistory s ((sys :: rest).take 1) rt).isSome)
    (hfail : ∀ k ∈ List.range ((sys :: rest).length + 1), 2 ≤ k →
      findMessageByHistory s ((sys :: rest).take k) rt = none) :
    findMatch s (sys :: rest) rt = (none, 0) ∧
    (saveToStorage s (sys :: rest) a st rt).conversations.length =
      s.conversations.length + 1 ∧
    (saveToStorage s (sys :: rest) a st rt).messages.map msgRoleContent =
      s.messages.map msgRoleContent ++ (sys :: rest).map roleContent ++
        (if assistantGuard a st then [roleContent a] else []) := by
  have hfail' : ∀ k, 2 ≤ k → k ≤ (sys :: rest).length →
      findMessageByHistory s ((sys :: rest).take k) rt = none := by
    intro k h2 hle
    exact hfail k (List.mem_range.mpr (by omega)) h2
  have hfm := findMatch_system_none s sys rest rt hsys hfail'
  obtain ⟨_, hlen, hmap, _⟩ := saveToStorage_noMatch s sys rest a st rt hWF hfm
  exact ⟨hfm, hlen, hmap⟩

set_option maxRecDepth 8000 in
/-- Witness for C3: a store where only the system prompt was ever
persisted; saving a history that extends that lone system message
creates a second conversation and re-appends the system message. -/
theorem c3_witness :
    WellFormed
      (saveToStorage emptyStorage [{ role := "system", content := "You are helpful." }]
        { role := "assistant", content := "Hi there" } 200 "chat") ∧
    ({ role := "system", content := "You are helpful." } : SimpleMessage).role = "system" ∧
    (findMessageByHistory
      (saveToStorage emptyStorage [{ role := "system", content := "You are helpful." }]
        { role := "assistant", content := "Hi there" } 200 "chat")
      ((({ role := "system", content := "You are helpful." } : SimpleMessage) :: [({ role := "user", content := "Hello" } : SimpleMessage)]).take 1) "chat").isSome ∧
    (∀ k ∈ List.range ((({ role := "system", content := "You are helpful." } : SimpleMessage) :: [({ role := "user", content := "Hello" } : SimpleMessage)]).length + 1),
      2 ≤ k →
      findMessageByHistory
        (saveToStorage emptyStorage [{ role := "system", content := "You are helpful." }]
        { role := "assistant", content := "Hi there" } 200 "chat")
        ((({ role := "system", content := "You are helpful." } : SimpleMessage) :: [({ role := "user", content := "Hello" } : SimpleMessage)]).take k) "chat" = none) ∧
    (findMatch
      (saveToStorage emptyStorage [{ role := "system", content := "You are helpful." }]
        { role := "assistant", content := "Hi there" } 200 "chat")
      (({ role := "system", content := "You are helpful." } : SimpleMessage) :: [({ role := "user", content := "Hello" } : SimpleMessage)]) "chat" = (none, 0) ∧
     (saveToStorage
        (saveToStorage emptyStorage [{ role := "system", content := "You are helpful." }]
        { role := "assistant", content := "Hi there" } 200 "chat")
        (({ role := "system", content := "You are helpful." } : SimpleMessage) :: [({ role := "user", content := "Hello" } : SimpleMessage)])
        { role := "assistant", content := "Hi there" } 200 "chat").conversations.length =
       (saveToStorage emptyStorage [{ role := "system", content := "You are helpful." }]
        { role := "assistant", content := "Hi there" } 200 "chat").conversations.length + 1 ∧
     (saveToStorage
        (saveToStorage emptyStorage [{ role := "system", content := "You are helpful." }]
        { role := "assistant", content := "Hi there" } 200 "chat")
        (({ role := "system", content := "You are helpful." } : SimpleMessage) :: [({ role := "user", content := "Hello" } : SimpleMessage)])
        { role := "assistant", content := "Hi there" } 200 "chat").messages.map msgRoleContent =
       (saveToStorage emptyStorage [{ role := "system", content := "You are helpful." }]
        { role := "assistant", content := "Hi there" } 200 "chat").messages.map msgRoleContent ++
         (({ role := "system", content := "You are helpful." } : SimpleMessage) :: [({ role := "user", content := "Hello" } : SimpleMessage)]).map roleContent ++
         (if assistantGuard { role := "assistant", content := "Hi there" } 200
          then [roleContent { role := "assistant", content := "Hi there" }] else [])) :=
  ⟨by decide, rfl, by decide, by decide,
    c3_single_system_fresh
      (saveToStorage emptyStorage [{ role := "system", content := "You are helpful." }]
        { role := "assistant", content := "Hi there" } 200 "chat")
      { role := "system", content := "You are helpful." } [({ role := "user", content := "Hello" } : SimpleMessage)]
      { role := "assistant", content := "Hi there" } 200 "chat" (by decide) rfl (by decide) (by decide)⟩

/-- After a save of a non-empty history, the store is well formed and
holds a message carrying the full history's hash inside a conversation
of the request type — the anchor the next identical save can match. -/
theorem saveToStorage_persists (s : StorageState) (m : SimpleMessage)
    (rest : List SimpleMessage) (a : SimpleMessage) (st : Nat) (rt : String)
    (hWF : WellFormed s) :
    WellFormed (saveToStorage s (m :: rest) a st rt) ∧
    ∃ mm ∈ (saveToStorage s (m :: rest) a st rt).messages,
      mm.cumulativeHash = computeHistoryHash (m :: rest) ∧
      conversationRequestType (saveToStorage s (m :: rest) a st rt) mm.conversationId =
        some rt := by
  rcases findMatch_cases s (m :: rest) rt with hfm | ⟨pid, k, hk1, hk2, hfind, hfm⟩
  · obtain ⟨hWF', _, _, hmm⟩ := saveToStorage_noMatch s m rest a st rt hWF hfm
    exact ⟨hWF', hmm⟩
  · obtain ⟨hWF', _, _, hmm⟩ := saveToStorage_match s (m :: rest) a st rt pid k hWF hfind hfm
    exact ⟨hWF', hmm⟩

/-! ## Claim C7 -/

/-- C7 counterexample: re-running the saving mixin with the identical
(history, assistant, status) triple does NOT always reuse the persisted
prefix.  For the single-system-message history the matched prefix is
discarded by the lone-system guard, so the second run creates a second
conversation and appends the system message a second time. -/
theorem c7_counterexample :
    ((saveToStorage
        (saveToStorage emptyStorage [{ role := "system", content := "You are helpful." }]
          { role := "assistant", content := "Hi there" } 200 "chat")
        [{ role := "system", content := "You are helpful." }]
        { role := "assistant", content := "Hi there" } 200 "chat").messages.filter
          (fun mm => mm.simple.role == "system")).length = 2 ∧
    (saveToStorage
        (saveToStorage emptyStorage [{ role := "system", content := "You are helpful." }]
          { role := "assistant", content := "Hi there" } 200 "chat")
        [{ role := "system", content := "You are helpful." }]
        { role := "assistant", content := "Hi there" } 200 "chat").conversations.length = 2 := by
  decide

/-- C7 (amended): for a non-empty history that is not a lone system
message, re-running the saving mixin with the identical (history,
assistant, status) triple reuses the already-persisted prefix: the
prefix search finds the previously stored history tail (the full
history matches), no conversation is created and no history message is
appended a second time — at most the assistant message is appended
again beyond the matched prefix. -/
theorem c7_amended (s : StorageState) (m : SimpleMessage) (rest : List SimpleMessage)
    (a : SimpleMessage) (st : Nat) (rt : String) (hWF : WellFormed s)
    (hns : ¬((m :: rest).length = 1 ∧ (m :: rest).headI.role = "system")) :
    (findMessageByHistory (saveToStorage s (m :: rest) a st rt) (m :: rest) rt).isSome ∧
    (saveToStorage (saveToStorage s (m :: rest) a st rt) (m :: rest) a st rt).conversations =
      (saveToStorage s (m :: rest) a st rt).conversations ∧
    (saveToStorage (saveToStorage s (m :: rest) a st rt) (m :: rest) a st rt).messages.map
        msgRoleContent =
      (saveToStorage s (m :: rest) a st rt).messages.map msgRoleContent ++
        (if assistantGuard a st then [roleContent a] else []) := by
  obtain ⟨hWF1, mm, hmm, hhash, hrt⟩ := saveToStorage_persists s m rest a st rt hWF
  have hsome := findMessageByHistory_isSome (saveToStorage s (m :: rest) a st rt)
    (m :: rest) rt mm (by simp) hmm hhash hrt
  obtain ⟨pid2, hfind2⟩ := Option.isSome_iff_exists.mp hsome
  have hfm2 := findMatch_full (saveToStorage s (m :: rest) a st rt) (m :: rest) rt pid2
    (by simp) hfind2 hns
  have hfind2' : findMessageByHistory (saveToStorage s (m :: rest) a st rt)
      ((m :: rest).take (m :: rest).length) rt = some pid2 := by
    rw [List.take_length]
    exact hfind2
  obtain ⟨hWF2, hconv2, hmap2, _⟩ := saveToStorage_match (saveToStorage s (m :: rest) a st rt)
    (m :: rest) a st rt pid2 (m :: rest).length hWF1 hfind2' hfm2
  refine ⟨hsome, hconv2, ?_⟩
  rw [hmap2, List.drop_length]
  simp

set_option maxRecDepth 8000 in
/-- Witness for C7 (amended): saving a one-user-message history twice
from an empty store — the second run matches the persisted history and
appends only the assistant again. -/
theorem c7_witness :
    WellFormed emptyStorage ∧
    ¬((({ role := "user", content := "Hello" } : SimpleMessage) :: []).length = 1 ∧
      (({ role := "user", content := "Hello" } : SimpleMessage) :: []).headI.role = "system") ∧
    ((findMessageByHistory
        (saveToStorage emptyStorage [({ role := "user", content := "Hello" } : SimpleMessage)]
          { role := "assistant", content := "Hi there" } 200 "chat")
        (({ role := "user", content := "Hello" } : SimpleMessage) :: []) "chat").isSome ∧
     (saveToStorage
        (saveToStorage emptyStorage [({ role := "user", content := "Hello" } : SimpleMessage)]
          { role := "assistant", content := "Hi there" } 200 "chat")
        (({ role := "user", content := "Hello" } : SimpleMessage) :: [])
        { role := "assistant", content := "Hi there" } 200 "chat").conversations =
       (saveToStorage emptyStorage [({ role := "user", content := "Hello" } : SimpleMessage)]
          { role := "assistant", content := "Hi there" } 200 "chat").conversations ∧
     (saveToStorage
        (saveToStorage emptyStorage [({ role := "user", content := "Hello" } : SimpleMessage)]
          { role := "assistant", content := "Hi there" } 200 "chat")
        (({ role := "user", content := "Hello" } : SimpleMessage) :: [])
        { role := "assistant", content := "Hi there" } 200 "chat").messages.map msgRoleContent =
       (saveToStorage emptyStorage [({ role := "user", content := "Hello" } : SimpleMessage)]
          { role := "assistant", content := "Hi there" } 200 "chat").messages.map msgRoleContent ++
         (if assistantGuard { role := "assistant", content := "Hi there" } 200
          then [roleContent { role := "assistant", content := "Hi there" }] else [])) :=
  ⟨by decide, by decide,
    c7_amended emptyStorage { role := "user", content := "Hello" } []
      { role := "assistant", content := "Hi there" } 200 "chat" (by decide) (by decide)⟩
